import Mathlib

set_option maxHeartbeats 1000000

/-!
Verification development for the lexer engine in `src/scan/lexer_public.ts`
(the `Lexer` class: constructor and `tokenize`).

Modelling conventions:
* Strings are `List Char`; machine strings are reconstructed with `String.mk`
  only inside diagnostic messages.
* A compiled pattern is a function from the remaining text to the length of
  the match.  The regex contract of the engine (validated at construction:
  no global or multi-line flags, no end anchor) requires matches to be
  anchored at position zero of the remaining text, so the matched image of a
  pattern returning `some n` on `s` is `s.take n`.
* JavaScript `undefined` table entries are `none`; the truthiness test
  `if (longerAltIdx)` is rendered by its exact semantics on numbers
  (`undefined` and `0` are falsy).
* Mutable locals of `tokenize` become the fields of `ScanState`; the mode
  stack keeps its top at the head.  The ghost field `spans` records, per
  loop iteration, the offset and the characters consumed (by a matched
  token, a skipped match, or an error-recovery episode); it influences
  nothing else and exists to state the input-accounting invariant.
* The helpers `validatePatterns`, `analyzeTokenClasses` and
  `countLineTerminators` are imported from `src/scan/lexer.ts`, which is not
  among the provided sources; `countLineTerminators` is modelled from the
  spec, and the constructor takes the outputs of validation/analysis as
  parameters.
-/

namespace Chevrotain

/-- A compiled token pattern: returns the length of the match anchored at the
start of the remaining text, or `none` when there is no match there. -/
abbrev Pat := List Char → Option Nat

/-- Is the character a line terminator character (LF or CR)? -/
def isLineTerm (c : Char) : Bool := c = '\n' || c = '\r'

/-- Modelled from the spec: `countLineTerminators` is implemented in
`src/scan/lexer.ts`, which is not among the provided sources.  Per section 4.4
of the spec it returns the number of line terminators in the string, where a
line terminator is LF, CR not followed by LF, or CRLF counted once. -/
def countLineTerminators : List Char → Nat
  | [] => 0
  | '\r' :: '\n' :: rest => 1 + countLineTerminators rest
  | c :: rest => (if isLineTerm c then 1 else 0) + countLineTerminators rest

/-- Index of the last LF or CR in the string (the reverse scan of lines
306-314 of `lexer_public.ts` computes the same index), or `none` when the
string has no line terminator character (the reverse scan would yield -1). -/
def lastLTIdxAux : List Char → Nat → Option Nat → Option Nat
  | [], _, acc => acc
  | c :: rest, i, acc => lastLTIdxAux rest (i + 1) (if isLineTerm c then some i else acc)

/-- Index of the last LF or CR character in a matched image. -/
def lastLTIdx (s : List Char) : Option Nat := lastLTIdxAux s 0 none

/-- Output token record: the fields the engine writes on a token.  `image`,
`startOffset`, `startLine`, `startColumn` and the owning class are set by the
token constructor call; `endLine` and `endColumn` stay at their defaults
unless the line-terminator branch assigns them. -/
structure TokenRecord where
  image : List Char
  startOffset : Nat
  startLine : Nat
  startColumn : Nat
  tokClass : Nat
  endLine : Option Nat := none
  endColumn : Option Nat := none
deriving Repr, DecidableEq

/-- A lexing error record pushed on the `errors` accumulator. -/
structure LexingError where
  line : Nat
  column : Nat
  length : Nat
  message : String
deriving Repr, DecidableEq

/-- The compiled per-mode parallel arrays produced by the catalog analyzer.
`patternIdxToGroup` holds `none` for a SKIPPED descriptor (JavaScript
`undefined`), `some "default"` for the main stream and `some name` for a
named bucket. -/
structure ModeTable where
  patterns : List Pat
  patternIdxToClass : List Nat
  patternIdxToGroup : List (Option String)
  patternIdxToLongerAltIdx : List (Option Nat)
  patternIdxToCanLineTerminator : List Bool
  patternIdxToPushMode : List (Option String)
  patternIdxToPopMode : List Bool

/-- The immutable state of a constructed `Lexer` instance. -/
structure Lexer where
  modes : List String
  tables : String → ModeTable
  emptyGroups : List String
  lexerDefinitionErrors : List String

/-- The result record returned by `tokenize`. -/
structure ILexingResult where
  tokens : List TokenRecord
  groups : List (String × List TokenRecord)
  errors : List LexingError
deriving Repr, DecidableEq

/-- Runtime exceptions the scan loop can raise: reading a property of the
`undefined` value bound to `newToken`. -/
inductive RTErr where
  | typeErrorUndefinedToken
deriving Repr, DecidableEq

/-- The mutable locals of one `tokenize` call, plus the ghost `spans` trace of
consumed input segments. -/
structure ScanState where
  orgInput : List Char
  text : List Char
  offset : Nat
  line : Nat
  column : Nat
  matchedTokens : List TokenRecord
  errors : List LexingError
  groups : List (String × List TokenRecord)
  modeStack : List String
  cur : ModeTable
  lastToken : Option TokenRecord
  spans : List (Nat × List Char)

/-- First-match scan of lines 265-267: try the patterns of the current mode in
declaration order, returning the first matching index and its match length. -/
def findFirstMatchAux (pats : List Pat) (text : List Char) (i : Nat) : Option (Nat × Nat) :=
  match pats with
  | [] => none
  | p :: rest =>
    match p text with
    | some len => some (i, len)
    | none => findFirstMatchAux rest text (i + 1)

/-- First matching pattern index (declaration order) and its match length. -/
def findFirstMatch (pats : List Pat) (text : List Char) : Option (Nat × Nat) :=
  findFirstMatchAux pats text 0

/-- Run the pattern stored at an index (`currModePatterns[idx].exec(text)`). -/
def execIdx (pats : List Pat) (idx : Nat) (text : List Char) : Option Nat :=
  match pats.get? idx with
  | some p => p text
  | none => none

/-- The match selection of lines 264-280: first pattern in declaration order,
then the longer-alternative override.  The guard `if (longerAltIdx)` tests
JavaScript truthiness, so a missing entry and the index 0 both skip the
override; the override wins only with a strictly longer match. -/
def findMatch (tbl : ModeTable) (text : List Char) : Option (Nat × Nat) :=
  match findFirstMatch tbl.patterns text with
  | none => none
  | some (i, len) =>
    match tbl.patternIdxToLongerAltIdx.getD i none with
    | none => some (i, len)
    | some altIdx =>
      if altIdx = 0 then some (i, len)
      else
        match execIdx tbl.patterns altIdx text with
        | some altLen => if len < altLen then some (altIdx, altLen) else some (i, len)
        | none => some (i, len)

/-- Append a token to its named bucket (`groups[group].push(newToken)`);
buckets were created up front from `emptyGroups`. -/
def pushGroup (gs : List (String × List TokenRecord)) (name : String) (tok : TokenRecord) :
    List (String × List TokenRecord) :=
  gs.map fun p => if p.1 = name then (p.1, p.2 ++ [tok]) else p

/-- The message of the failed-pop error record. -/
def popMsg (img : String) : String :=
  "Unable to pop Lexer Mode after encountering Token ->" ++ img ++ "<- The Mode Stack is empty"

/-- The `pop_mode` closure (lines 227-247).  On a singleton stack the pop is
ignored and an error record is built from the fields of `popToken`; when that
local still holds `undefined` (no non-skipped token was constructed yet), the
property accesses raise a TypeError.  Otherwise the top mode is popped and the
current-mode arrays are reloaded from the new top. -/
def popModeFn (l : Lexer) (popToken : Option TokenRecord) (st : ScanState) :
    Except RTErr ScanState :=
  if st.modeStack.length = 1 then
    match popToken with
    | none => .error .typeErrorUndefinedToken
    | some tok =>
      .ok { st with errors := st.errors ++
              [{ line := tok.startLine
                 column := tok.startColumn
                 length := tok.image.length
                 message := popMsg (String.mk tok.image) }] }
  else
    match st.modeStack with
    | _ :: newMode :: rest =>
      .ok { st with modeStack := newMode :: rest, cur := l.tables newMode }
    | _ => .ok st

/-- The `push_mode` closure (lines 249-259). -/
def pushModeFn (l : Lexer) (newMode : String) (st : ScanState) : ScanState :=
  { st with modeStack := newMode :: st.modeStack, cur := l.tables newMode }

/-- The push check of lines 338-340.  It reads the *current* value of the
`patternIdxToPushMode` local, which `pop_mode` reloads on a successful pop. -/
def afterPop (l : Lexer) (st : ScanState) (i : Nat) : ScanState :=
  match st.cur.patternIdxToPushMode.getD i none with
  | some m => pushModeFn l m st
  | none => st

/-- Mode handling of lines 333-340: pop before push. -/
def afterMode (l : Lexer) (st : ScanState) (i : Nat) (newTok : Option TokenRecord) :
    Except RTErr ScanState :=
  if st.cur.patternIdxToPopMode.getD i false then
    match popModeFn l newTok st with
    | .ok st1 => .ok (afterPop l st1 i)
    | .error e => .error e
  else
    .ok (afterPop l st i)

/-- Position bookkeeping of lines 298-331 given the matched image: the new
`line`, the new `column`, and the `endLine` / `endColumn` assignments (as
options, `none` meaning left at the token defaults).  `naiveColumn` is the
already-advanced `column + imageLength` of line 298. -/
def advancePos (canLT : Bool) (matchedImage : List Char) (line naiveColumn : Nat) :
    Nat × Nat × Option Nat × Option Nat :=
  if canLT ∧ countLineTerminators matchedImage ≠ 0 then
    let ltCount := countLineTerminators matchedImage
    let lineN := line + ltCount
    let imageLength := matchedImage.length
    match lastLTIdx matchedImage with
    | some idx =>
      let colN := imageLength - idx
      if ltCount = 1 ∧ idx = imageLength - 1 then
        (lineN, colN, none, none)
      else if idx = imageLength - 1 then
        (lineN, colN, some (lineN - 1), some (colN - 1 + 1))
      else
        (lineN, colN, some lineN, some (colN - 1))
    | none => (lineN, imageLength + 1, some lineN, some (imageLength + 1 - 1))
  else
    (line, naiveColumn, none, none)

/-- The token object constructed at line 288 for a non-skipped match, with
the `endLine`/`endColumn` assignments that lines 317-329 perform on the
already dispatched object. -/
def matchTok (st : ScanState) (i len : Nat) : TokenRecord :=
  let matchedImage := st.text.take len
  { image := matchedImage
    startOffset := st.offset
    startLine := st.line
    startColumn := st.column
    tokClass := st.cur.patternIdxToClass.getD i 0
    endLine := (advancePos (st.cur.patternIdxToCanLineTerminator.getD i false) matchedImage
      st.line (st.column + matchedImage.length)).2.2.1
    endColumn := (advancePos (st.cur.patternIdxToCanLineTerminator.getD i false) matchedImage
      st.line (st.column + matchedImage.length)).2.2.2 }

/-- The position advance common to every successful match (lines 296-331):
drop the image from the text, advance the offset and column by the image
length, and apply the line-terminator bookkeeping.  The consumed segment is
recorded on the ghost span trace. -/
def advanceState (st : ScanState) (i len : Nat) : ScanState :=
  let matchedImage := st.text.take len
  let imageLength := matchedImage.length
  let pos := advancePos (st.cur.patternIdxToCanLineTerminator.getD i false) matchedImage
    st.line (st.column + imageLength)
  { st with
    text := st.text.drop imageLength
    offset := st.offset + imageLength
    line := pos.1
    column := pos.2.1
    spans := st.spans ++ [(st.offset, matchedImage)] }

/-- One successful-match iteration (lines 282-341) for the winning index `i`
and match length `len`.  For a SKIPPED descriptor no token is constructed and
`newToken` keeps its previous value; otherwise the token is built and routed
to the default stream or its named bucket. -/
def stepMatch (l : Lexer) (st : ScanState) (i len : Nat) : Except RTErr ScanState :=
  match st.cur.patternIdxToGroup.getD i none with
  | none => afterMode l (advanceState st i len) i st.lastToken
  | some g =>
    let tok := matchTok st i len
    afterMode l
      { advanceState st i len with
        matchedTokens := if g = "default" then st.matchedTokens ++ [tok] else st.matchedTokens
        groups := if g = "default" then st.groups else pushGroup st.groups g tok
        lastToken := some tok } i (some tok)

/-- The resync probe of lines 364-369: does any pattern of the current mode
match at the new position? -/
def anyPatternMatches (pats : List Pat) (text : List Char) : Bool :=
  pats.any fun p => (p text).isSome

/-- The skip loop of lines 347-370: drop one character at a time (updating
line and column: a LF, or a CR not immediately followed by LF, starts a new
line), stopping as soon as some pattern matches at the new position or the
input is exhausted.  Returns the new text, offset, line and column. -/
def recoverLoopAux (pats : List Pat) :
    List Char → Nat → Nat → Nat → List Char × Nat × Nat × Nat
  | [], offset, line, column => ([], offset, line, column)
  | c :: rest, offset, line, column =>
    let lc :=
      if c = '\n' ∨ (c = '\r' ∧ rest.head? ≠ some '\n') then (line + 1, 1)
      else (line, column + 1)
    if anyPatternMatches pats rest then (rest, offset + 1, lc.1, lc.2)
    else recoverLoopAux pats rest (offset + 1) lc.1 lc.2

/-- One error-recovery iteration (lines 342-377): record the start position,
skip to a resync point, and push exactly one error record whose length is the
number of characters skipped. -/
def stepNoMatch (_l : Lexer) (st : ScanState) : ScanState :=
  let r := recoverLoopAux st.cur.patterns st.text st.offset st.line st.column
  let errLength := r.2.1 - st.offset
  let msg := "unexpected character: ->" ++ String.mk [st.orgInput.getD st.offset ' '] ++
    "<- at offset: " ++ toString st.offset ++ ", skipped " ++ toString errLength ++ " characters."
  { st with
    text := r.1
    offset := r.2.1
    line := r.2.2.1
    column := r.2.2.2
    errors := st.errors ++
      [{ line := st.line, column := st.column, length := errLength, message := msg }]
    spans := st.spans ++ [(st.offset, st.text.take errLength)] }

/-- Outcome of the scan loop under a fuel bound: normal completion, the
TypeError of `pop_mode` on an `undefined` token, or fuel exhaustion (the
marker for a non-terminating run). -/
inductive LoopResult where
  | done (st : ScanState)
  | typeError
  | outOfFuel

/-- The main loop of lines 263-378, with fuel.  Each iteration either
consumes a match or runs one error-recovery episode. -/
def tokenizeLoop (l : Lexer) : Nat → ScanState → LoopResult
  | 0, st => if st.text = [] then .done st else .outOfFuel
  | fuel + 1, st =>
    if st.text = [] then .done st
    else
      match findMatch st.cur st.text with
      | some (i, len) =>
        match stepMatch l st i len with
        | .ok st1 => tokenizeLoop l fuel st1
        | .error _ => .typeError
      | none => tokenizeLoop l fuel (stepNoMatch l st)

/-- The state at entry of the main loop: fresh accumulators, group buckets
cloned from `emptyGroups`, position 0 at line 1 column 1, and the initial
mode pushed on the empty mode stack. -/
def initState (l : Lexer) (text : List Char) (initialMode : String) : ScanState :=
  { orgInput := text
    text := text
    offset := 0
    line := 1
    column := 1
    matchedTokens := []
    errors := []
    groups := l.emptyGroups.map fun g => (g, [])
    modeStack := [initialMode]
    cur := l.tables initialMode
    lastToken := none
    spans := [] }

/-- Join a list of definition-error messages the way the constructor and
`tokenize` do. -/
def joinDefErrors (errs : List String) : String :=
  String.intercalate "-----------------------\n" errs

/-- Observable outcome of one `tokenize` call. -/
inductive TokenizeOutcome where
  | ok (r : ILexingResult)
  | defErr (msg : String)
  | typeError
  | diverge
deriving Repr, DecidableEq

/-- `Lexer.tokenize` (lines 196-381): fail fatally when definition errors are
present, otherwise run the scan loop.  Under the no-zero-length-match
contract a fuel budget of one iteration per input character is exact, since
every iteration consumes at least one character; `diverge` marks runs that
would loop forever. -/
def Lexer.tokenize (l : Lexer) (text : List Char) (initialMode : String) : TokenizeOutcome :=
  if l.lexerDefinitionErrors ≠ [] then
    .defErr ("Unable to Tokenize because Errors detected in definition of Lexer:\n" ++
      joinDefErrors l.lexerDefinitionErrors)
  else
    match tokenizeLoop l text.length (initState l text initialMode) with
    | .done st => .ok { tokens := st.matchedTokens, groups := st.groups, errors := st.errors }
    | .typeError => .typeError
    | .outOfFuel => .diverge

/-- The outputs of validation and analysis that the constructor caches.
`validatePatterns` and `analyzeTokenClasses` live in `src/scan/lexer.ts`,
outside the provided sources, so the constructor is modelled as taking their
results: the compiled tables plus the accumulated definition errors. -/
structure CompiledDef where
  modes : List String
  tables : String → ModeTable
  emptyGroups : List String

/-- The constructor logic of lines 143-183 around validation: with definition
errors and no deferred handling requested, construction fails fatally with
all messages concatenated; otherwise the instance is built and exposes the
errors on `lexerDefinitionErrors`. -/
def mkLexer (compiled : CompiledDef) (defErrors : List String)
    (deferDefinitionErrorsHandling : Bool) : Except String Lexer :=
  if defErrors ≠ [] ∧ deferDefinitionErrorsHandling = false then
    .error ("Errors detected in definition of Lexer:\n" ++ joinDefErrors defErrors)
  else
    .ok { modes := compiled.modes
          tables := compiled.tables
          emptyGroups := compiled.emptyGroups
          lexerDefinitionErrors := defErrors }

/-- A sequence of `tokenize` calls against one lexer instance (the instance
is immutable, so the calls share it by reference). -/
def runSession (l : Lexer) (calls : List (List Char × String)) : List TokenizeOutcome :=
  calls.map fun c => l.tokenize c.1 c.2

/-! Concrete pattern builders and small lexers, used to instantiate the
theorems on explicit inputs. -/

/-- Anchored literal pattern, the image of a regex such as `/do/`. -/
def litPat (lit : List Char) : Pat := fun s =>
  if s.take lit.length = lit then some lit.length else none

/-- Anchored greedy character-class-plus pattern, the image of a regex such
as `/[a-z]+/`. -/
def classPlusPat (f : Char → Bool) : Pat := fun s =>
  if (s.takeWhile f).length = 0 then none else some (s.takeWhile f).length

/-- The pattern `/[a-z]+/`. -/
def lowercasePlus : Pat := classPlusPat fun c => 'a' ≤ c && c ≤ 'z'

/-- Single-mode table whose only descriptor is `/[a-z]+/` on the default
stream (the catalog of spec scenario 4). -/
def demoTable : ModeTable :=
  { patterns := [lowercasePlus]
    patternIdxToClass := [0]
    patternIdxToGroup := [some "default"]
    patternIdxToLongerAltIdx := [none]
    patternIdxToCanLineTerminator := [false]
    patternIdxToPushMode := [none]
    patternIdxToPopMode := [false] }

/-- The lexer compiled from `demoTable`. -/
def demoLexer : Lexer :=
  { modes := ["default_mode"]
    tables := fun _ => demoTable
    emptyGroups := []
    lexerDefinitionErrors := [] }

/-- Keyword-vs-identifier table: `/do/` with longer alternative `/[a-z]+/`. -/
def kwTable : ModeTable :=
  { patterns := [litPat ['d', 'o'], lowercasePlus]
    patternIdxToClass := [0, 1]
    patternIdxToGroup := [some "default", some "default"]
    patternIdxToLongerAltIdx := [some 1, none]
    patternIdxToCanLineTerminator := [false, false]
    patternIdxToPushMode := [none, none]
    patternIdxToPopMode := [false, false] }

/-- Table whose second descriptor declares its longer alternative at index 0:
the truthiness guard then never attempts the override. -/
def altZeroTable : ModeTable :=
  { patterns := [litPat ['x', 'y', 'z'], litPat ['d', 'o']]
    patternIdxToClass := [0, 1]
    patternIdxToGroup := [some "default", some "default"]
    patternIdxToLongerAltIdx := [none, some 0]
    patternIdxToCanLineTerminator := [false, false]
    patternIdxToPushMode := [none, none]
    patternIdxToPopMode := [false, false] }

/-- Table with a single multi-line-capable token matching exactly "a\nb". -/
def mlTable : ModeTable :=
  { patterns := [litPat ['a', '\n', 'b']]
    patternIdxToClass := [0]
    patternIdxToGroup := [some "default"]
    patternIdxToLongerAltIdx := [none]
    patternIdxToCanLineTerminator := [true]
    patternIdxToPushMode := [none]
    patternIdxToPopMode := [false] }

/-- The lexer compiled from `mlTable`. -/
def mlLexer : Lexer :=
  { modes := ["default_mode"]
    tables := fun _ => mlTable
    emptyGroups := []
    lexerDefinitionErrors := [] }

/-- Table whose only descriptor is SKIPPED and pops the mode. -/
def skipPopTable : ModeTable :=
  { patterns := [litPat ['s']]
    patternIdxToClass := [0]
    patternIdxToGroup := [none]
    patternIdxToLongerAltIdx := [none]
    patternIdxToCanLineTerminator := [false]
    patternIdxToPushMode := [none]
    patternIdxToPopMode := [true] }

/-- The lexer compiled from `skipPopTable`. -/
def skipPopLexer : Lexer :=
  { modes := ["M"]
    tables := fun _ => skipPopTable
    emptyGroups := []
    lexerDefinitionErrors := [] }

/-- Mode A: the token 'x' pops the mode and declares push mode "C". -/
def tableA : ModeTable :=
  { patterns := [litPat ['x']]
    patternIdxToClass := [0]
    patternIdxToGroup := [some "default"]
    patternIdxToLongerAltIdx := [none]
    patternIdxToCanLineTerminator := [false]
    patternIdxToPushMode := [some "C"]
    patternIdxToPopMode := [true] }

/-- An empty mode table (no descriptors). -/
def emptyTable : ModeTable :=
  { patterns := []
    patternIdxToClass := []
    patternIdxToGroup := []
    patternIdxToLongerAltIdx := []
    patternIdxToCanLineTerminator := []
    patternIdxToPushMode := []
    patternIdxToPopMode := [] }

/-- Three-mode lexer exercising mode transitions: "A" as above, "B" and "C"
with no descriptors. -/
def abcLexer : Lexer :=
  { modes := ["B", "A", "C"]
    tables := fun m => if m = "A" then tableA else emptyTable
    emptyGroups := []
    lexerDefinitionErrors := [] }

/-- A scan state in the middle of a run of `abcLexer`: current mode "A" on
top of "B", about to consume the pending "x". -/
def abcState : ScanState :=
  { orgInput := ['x']
    text := ['x']
    offset := 0
    line := 1
    column := 1
    matchedTokens := []
    errors := []
    groups := []
    modeStack := ["A", "B"]
    cur := tableA
    lastToken := none
    spans := [] }

/-- Table whose only pattern matches the empty string at every position. -/
def epsTable : ModeTable :=
  { patterns := [fun _ => some 0]
    patternIdxToClass := [0]
    patternIdxToGroup := [some "default"]
    patternIdxToLongerAltIdx := [none]
    patternIdxToCanLineTerminator := [false]
    patternIdxToPushMode := [none]
    patternIdxToPopMode := [false] }

/-- The lexer compiled from `epsTable`: its pattern yields zero-length
matches, violating the engine contract. -/
def epsLexer : Lexer :=
  { modes := ["M"]
    tables := fun _ => epsTable
    emptyGroups := []
    lexerDefinitionErrors := [] }

/-- Single-mode table whose only token pops the mode (default group). -/
def popDefTable : ModeTable :=
  { patterns := [litPat ['x']]
    patternIdxToClass := [0]
    patternIdxToGroup := [some "default"]
    patternIdxToLongerAltIdx := [none]
    patternIdxToCanLineTerminator := [false]
    patternIdxToPushMode := [none]
    patternIdxToPopMode := [true] }

/-- The lexer compiled from `popDefTable`. -/
def popDefLexer : Lexer :=
  { modes := ["M"]
    tables := fun _ => popDefTable
    emptyGroups := []
    lexerDefinitionErrors := [] }

/-- Project the mode stack out of a `stepMatch` outcome (empty on error). -/
def modeStackOf : Except RTErr ScanState → List String
  | .ok st => st.modeStack
  | .error _ => []

/-- Compiled tables of a one-mode catalog, used to instantiate the
constructor. -/
def trivCompiled : CompiledDef :=
  { modes := ["default_mode"]
    tables := fun _ => demoTable
    emptyGroups := [] }

/-- The no-zero-length-match contract: no compiled pattern of any mode of the
lexer ever produces an empty match. -/
def NoZeroLen (l : Lexer) : Prop :=
  ∀ m, ∀ p ∈ (l.tables m).patterns, ∀ s n, p s = some n → 1 ≤ n

/-- Concatenation of the consumed segments of the ghost span trace. -/
def joinSpans (sp : List (Nat × List Char)) : List Char :=
  (sp.map Prod.snd).flatten

/-- The span trace forms a gap-free chain of nonempty segments from offset
`o` to offset `e`: each span starts exactly where the previous one ended. -/
def spansFrom : Nat → List (Nat × List Char) → Nat → Bool
  | o, [], e => o == e
  | o, (off, img) :: rest, e => (off == o) && (!img.isEmpty) && spansFrom (o + img.length) rest e

/-- Scan-loop invariant for the input-accounting claim: the current-mode
arrays come from a compiled table, the remaining text is the unconsumed
suffix of the input, the span trace is a gap-free chain covering exactly the
consumed prefix, and every token dispatched to the default stream or a group
bucket corresponds to one span of the trace. -/
def C1Inv (l : Lexer) (st : ScanState) : Prop :=
  (∃ m, st.cur = l.tables m) ∧
  st.text = st.orgInput.drop st.offset ∧
  st.offset ≤ st.orgInput.length ∧
  joinSpans st.spans = st.orgInput.take st.offset ∧
  spansFrom 0 st.spans st.offset = true ∧
  List.Sublist (st.matchedTokens.map fun tk => (tk.startOffset, tk.image)) st.spans ∧
  (∀ gts ∈ st.groups,
    List.Sublist (gts.2.map fun tk => (tk.startOffset, tk.image)) st.spans)

/-- Relation between the state handed to the mode-handling code of lines
333-340 and the state it leaves: everything except the mode stack, the
current-mode arrays and the error list is untouched; the current-mode arrays
are either left alone or reloaded from a compiled table of the lexer; errors
are only appended. -/
def StepFrame (l : Lexer) (st st1 : ScanState) : Prop :=
  st1.orgInput = st.orgInput ∧ st1.text = st.text ∧ st1.offset = st.offset ∧
  st1.line = st.line ∧ st1.column = st.column ∧
  st1.matchedTokens = st.matchedTokens ∧ st1.groups = st.groups ∧
  st1.lastToken = st.lastToken ∧ st1.spans = st.spans ∧
  (st1.cur = st.cur ∨ ∃ m, st1.cur = l.tables m) ∧
  ∃ es, st1.errors = st.errors ++ es

/-- How one successful-match iteration changes the output accumulators: for a
SKIPPED descriptor nothing is appended; otherwise one token whose start
offset and image are the consumed segment is appended either to the default
stream or to one named bucket. -/
def TokensUpd (st st1 : ScanState) (off : Nat) (img : List Char) : Prop :=
  (st1.matchedTokens = st.matchedTokens ∧ st1.groups = st.groups) ∨
  ∃ tok : TokenRecord, tok.startOffset = off ∧ tok.image = img ∧
    ((st1.matchedTokens = st.matchedTokens ++ [tok] ∧ st1.groups = st.groups) ∨
     (st1.matchedTokens = st.matchedTokens ∧ ∃ g, st1.groups = pushGroup st.groups g tok))

/-! Lemmas about the first-match scan and the longer-alternative override. -/

theorem findFirstMatchAux_shift (pats : List Pat) (text : List Char) (k : Nat) :
    findFirstMatchAux pats text k =
      (findFirstMatchAux pats text 0).map fun r => (r.1 + k, r.2) := by
  induction pats generalizing k with
  | nil => simp [findFirstMatchAux]
  | cons p rest ih =>
    cases h : p text with
    | some len => simp [findFirstMatchAux, h, Nat.zero_add]
    | none =>
      simp only [findFirstMatchAux, h]
      rw [ih (k + 1), ih 1]
      cases findFirstMatchAux rest text 0 with
      | none => rfl
      | some r => simp; omega

theorem findFirstMatch_least (pats : List Pat) (text : List Char) (i len : Nat)
    (hi : execIdx pats i text = some len)
    (hleast : ∀ j, j < i → execIdx pats j text = none) :
    findFirstMatch pats text = some (i, len) := by
  induction pats generalizing i with
  | nil => simp [execIdx] at hi
  | cons p rest ih =>
    cases i with
    | zero =>
      have hp : p text = some len := by simpa [execIdx] using hi
      simp [findFirstMatch, findFirstMatchAux, hp]
    | succ j =>
      have h0 : p text = none := by simpa [execIdx] using hleast 0 (Nat.succ_pos j)
      have hi' : execIdx rest j text = some len := by simpa [execIdx] using hi
      have hleast' : ∀ m, m < j → execIdx rest m text = none := by
        intro m hm
        simpa [execIdx] using hleast (m + 1) (by omega)
      have hrest := ih j hi' hleast'
      simp only [findFirstMatch, findFirstMatchAux, h0] at hrest ⊢
      rw [findFirstMatchAux_shift rest text 1, hrest]
      rfl

theorem execIdx_mem (pats : List Pat) (idx : Nat) (text : List Char) (n : Nat)
    (h : execIdx pats idx text = some n) : ∃ p ∈ pats, p text = some n := by
  unfold execIdx at h
  cases hg : pats.get? idx with
  | none => rw [hg] at h; cases h
  | some p => rw [hg] at h; exact ⟨p, List.get?_mem hg, h⟩

theorem findFirstMatch_mem (pats : List Pat) (text : List Char) (i len : Nat)
    (h : findFirstMatch pats text = some (i, len)) : ∃ p ∈ pats, p text = some len := by
  induction pats generalizing i with
  | nil => simp [findFirstMatch, findFirstMatchAux] at h
  | cons p rest ih =>
    cases hp : p text with
    | some l =>
      simp [findFirstMatch, findFirstMatchAux, hp] at h
      exact ⟨p, List.mem_cons_self p rest, by rw [hp, h.2]⟩
    | none =>
      simp only [findFirstMatch, findFirstMatchAux, hp] at h
      rw [findFirstMatchAux_shift rest text 1] at h
      cases hr : findFirstMatchAux rest text 0 with
      | none => rw [hr] at h; cases h
      | some r =>
        rw [hr] at h
        simp at h
        obtain ⟨q, hq, hqt⟩ := ih r.1 (by rw [findFirstMatch]; rw [hr, ← h.2])
        exact ⟨q, List.mem_cons_of_mem p hq, hqt⟩

theorem findMatch_mem (tbl : ModeTable) (text : List Char) (i len : Nat)
    (h : findMatch tbl text = some (i, len)) : ∃ p ∈ tbl.patterns, p text = some len := by
  unfold findMatch at h
  split at h
  · cases h
  · rename_i i0 len0 hf
    have hffm := findFirstMatch_mem tbl.patterns text i0 len0 hf
    split at h
    · cases h
      exact hffm
    · rename_i altIdx halt
      split at h
      · cases h
        exact hffm
      · split at h
        · rename_i altLen hex
          split at h
          · cases h
            exact execIdx_mem _ _ _ _ hex
          · cases h
            exact hffm
        · cases h
          exact hffm

/-- C2.  In every iteration of the main loop, the pattern selected before the
longer-alternative override is the one with the smallest index in the current
mode's declaration order that matches at the current position (matching is
anchored at the start of the remaining text by the `Pat` contract); the
declared longer alternative then replaces the winning match exactly when it
also matches with a strictly longer lexeme, so an equal-length alternative
does not win. -/
theorem spec_c2 (tbl : ModeTable) (text : List Char) (i len : Nat)
    (hi : execIdx tbl.patterns i text = some len)
    (hleast : ∀ j, j < i → execIdx tbl.patterns j text = none) :
    findFirstMatch tbl.patterns text = some (i, len) ∧
    (∀ a, tbl.patternIdxToLongerAltIdx.getD i none = some a → a ≠ 0 →
      ∀ la, execIdx tbl.patterns a text = some la → len < la →
        findMatch tbl text = some (a, la)) ∧
    (∀ a, tbl.patternIdxToLongerAltIdx.getD i none = some a → a ≠ 0 →
      ∀ la, execIdx tbl.patterns a text = some la → la ≤ len →
        findMatch tbl text = some (i, len)) ∧
    (∀ a, tbl.patternIdxToLongerAltIdx.getD i none = some a → a ≠ 0 →
      execIdx tbl.patterns a text = none → findMatch tbl text = some (i, len)) ∧
    (tbl.patternIdxToLongerAltIdx.getD i none = none →
      findMatch tbl text = some (i, len)) := by
  have hffm := findFirstMatch_least tbl.patterns text i len hi hleast
  refine ⟨hffm, ?_, ?_, ?_, ?_⟩
  · intro a ha h0 la hla hlt
    unfold findMatch
    simp only [hffm, ha, hla, if_neg h0, if_pos hlt]
  · intro a ha h0 la hla hle
    unfold findMatch
    simp only [hffm, ha, hla, if_neg h0, if_neg (Nat.not_lt.mpr hle)]
  · intro a ha h0 hnone
    unfold findMatch
    simp only [hffm, ha, hnone, if_neg h0]
  · intro hnone
    unfold findMatch
    simp only [hffm, hnone]

theorem spec_c2_witness :
    execIdx kwTable.patterns 0 ("donald".toList) = some 2 ∧
    findFirstMatch kwTable.patterns ("donald".toList) = some (0, 2) ∧
    findMatch kwTable ("donald".toList) = some (1, 6) ∧
    findMatch kwTable ("do".toList) = some (0, 2) := by
  have h := spec_c2 kwTable ("donald".toList) 0 2 (by decide)
    (fun j hj => absurd hj (Nat.not_lt_zero j))
  have h' := spec_c2 kwTable ("do".toList) 0 2 (by decide)
    (fun j hj => absurd hj (Nat.not_lt_zero j))
  refine ⟨by decide, h.1, ?_, ?_⟩
  · exact h.2.1 1 (by decide) (by decide) 6 (by decide) (by decide)
  · exact h'.2.2.1 1 (by decide) (by decide) 2 (by decide) (by decide)

/-- C6.  When the resolved longer-alternative index of the winning pattern is
0 (its longer alternative is the first pattern of the mode), the truthiness
guard treats the entry as unset: the override is never attempted and the
original match is kept, regardless of how the pattern at index 0 behaves. -/
theorem spec_c6 (tbl : ModeTable) (text : List Char) (i len : Nat)
    (hi : execIdx tbl.patterns i text = some len)
    (hleast : ∀ j, j < i → execIdx tbl.patterns j text = none)
    (halt : tbl.patternIdxToLongerAltIdx.getD i none = some 0) :
    findMatch tbl text = some (i, len) := by
  have hffm := findFirstMatch_least tbl.patterns text i len hi hleast
  unfold findMatch
  simp only [hffm, halt]
  simp

theorem spec_c6_witness :
    altZeroTable.patternIdxToLongerAltIdx.getD 1 none = some 0 ∧
    findMatch altZeroTable ("donald".toList) = some (1, 2) := by
  refine ⟨by decide, ?_⟩
  exact spec_c6 altZeroTable ("donald".toList) 1 2 (by decide)
    (by intro j hj; interval_cases j; decide) (by decide)

/-! Lemmas about mode handling after a successful match. -/

theorem popModeFn_singleton_some (l : Lexer) (tok : TokenRecord) (st : ScanState)
    (hstack : st.modeStack.length = 1) :
    popModeFn l (some tok) st = .ok { st with errors := st.errors ++
      [{ line := tok.startLine
         column := tok.startColumn
         length := tok.image.length
         message := popMsg (String.mk tok.image) }] } := by
  unfold popModeFn
  rw [if_pos hstack]

theorem popModeFn_singleton_none (l : Lexer) (st : ScanState)
    (hstack : st.modeStack.length = 1) :
    popModeFn l none st = .error .typeErrorUndefinedToken := by
  unfold popModeFn
  rw [if_pos hstack]

theorem popModeFn_cons (l : Lexer) (ntok : Option TokenRecord) (st : ScanState)
    (a b : String) (rest : List String) (hstack : st.modeStack = a :: b :: rest) :
    popModeFn l ntok st = .ok { st with modeStack := b :: rest, cur := l.tables b } := by
  unfold popModeFn
  rw [if_neg (by rw [hstack]; simp)]
  rw [hstack]

@[simp] theorem advanceState_orgInput (st : ScanState) (i len : Nat) :
    (advanceState st i len).orgInput = st.orgInput := rfl

@[simp] theorem advanceState_text (st : ScanState) (i len : Nat) :
    (advanceState st i len).text = st.text.drop (st.text.take len).length := rfl

@[simp] theorem advanceState_offset (st : ScanState) (i len : Nat) :
    (advanceState st i len).offset = st.offset + (st.text.take len).length := rfl

@[simp] theorem advanceState_line (st : ScanState) (i len : Nat) :
    (advanceState st i len).line =
      (advancePos (st.cur.patternIdxToCanLineTerminator.getD i false) (st.text.take len)
        st.line (st.column + (st.text.take len).length)).1 := rfl

@[simp] theorem advanceState_column (st : ScanState) (i len : Nat) :
    (advanceState st i len).column =
      (advancePos (st.cur.patternIdxToCanLineTerminator.getD i false) (st.text.take len)
        st.line (st.column + (st.text.take len).length)).2.1 := rfl

@[simp] theorem advanceState_matchedTokens (st : ScanState) (i len : Nat) :
    (advanceState st i len).matchedTokens = st.matchedTokens := rfl

@[simp] theorem advanceState_errors (st : ScanState) (i len : Nat) :
    (advanceState st i len).errors = st.errors := rfl

@[simp] theorem advanceState_groups (st : ScanState) (i len : Nat) :
    (advanceState st i len).groups = st.groups := rfl

@[simp] theorem advanceState_modeStack (st : ScanState) (i len : Nat) :
    (advanceState st i len).modeStack = st.modeStack := rfl

@[simp] theorem advanceState_cur (st : ScanState) (i len : Nat) :
    (advanceState st i len).cur = st.cur := rfl

@[simp] theorem advanceState_lastToken (st : ScanState) (i len : Nat) :
    (advanceState st i len).lastToken = st.lastToken := rfl

@[simp] theorem advanceState_spans (st : ScanState) (i len : Nat) :
    (advanceState st i len).spans = st.spans ++ [(st.offset, st.text.take len)] := rfl

@[simp] theorem matchTok_image (st : ScanState) (i len : Nat) :
    (matchTok st i len).image = st.text.take len := rfl

@[simp] theorem matchTok_startOffset (st : ScanState) (i len : Nat) :
    (matchTok st i len).startOffset = st.offset := rfl

@[simp] theorem matchTok_startLine (st : ScanState) (i len : Nat) :
    (matchTok st i len).startLine = st.line := rfl

@[simp] theorem matchTok_startColumn (st : ScanState) (i len : Nat) :
    (matchTok st i len).startColumn = st.column := rfl

@[simp] theorem matchTok_tokClass (st : ScanState) (i len : Nat) :
    (matchTok st i len).tokClass = st.cur.patternIdxToClass.getD i 0 := rfl

theorem matchTok_endLine (st : ScanState) (i len : Nat) :
    (matchTok st i len).endLine =
      (advancePos (st.cur.patternIdxToCanLineTerminator.getD i false) (st.text.take len)
        st.line (st.column + (st.text.take len).length)).2.2.1 := rfl

theorem matchTok_endColumn (st : ScanState) (i len : Nat) :
    (matchTok st i len).endColumn =
      (advancePos (st.cur.patternIdxToCanLineTerminator.getD i false) (st.text.take len)
        st.line (st.column + (st.text.take len).length)).2.2.2 := rfl

@[simp] theorem pushModeFn_modeStack (l : Lexer) (m : String) (st : ScanState) :
    (pushModeFn l m st).modeStack = m :: st.modeStack := rfl

@[simp] theorem pushModeFn_cur (l : Lexer) (m : String) (st : ScanState) :
    (pushModeFn l m st).cur = l.tables m := rfl

@[simp] theorem pushModeFn_orgInput (l : Lexer) (m : String) (st : ScanState) :
    (pushModeFn l m st).orgInput = st.orgInput := rfl

@[simp] theorem pushModeFn_text (l : Lexer) (m : String) (st : ScanState) :
    (pushModeFn l m st).text = st.text := rfl

@[simp] theorem pushModeFn_offset (l : Lexer) (m : String) (st : ScanState) :
    (pushModeFn l m st).offset = st.offset := rfl

@[simp] theorem pushModeFn_line (l : Lexer) (m : String) (st : ScanState) :
    (pushModeFn l m st).line = st.line := rfl

@[simp] theorem pushModeFn_column (l : Lexer) (m : String) (st : ScanState) :
    (pushModeFn l m st).column = st.column := rfl

@[simp] theorem pushModeFn_matchedTokens (l : Lexer) (m : String) (st : ScanState) :
    (pushModeFn l m st).matchedTokens = st.matchedTokens := rfl

@[simp] theorem pushModeFn_errors (l : Lexer) (m : String) (st : ScanState) :
    (pushModeFn l m st).errors = st.errors := rfl

@[simp] theorem pushModeFn_groups (l : Lexer) (m : String) (st : ScanState) :
    (pushModeFn l m st).groups = st.groups := rfl

@[simp] theorem pushModeFn_lastToken (l : Lexer) (m : String) (st : ScanState) :
    (pushModeFn l m st).lastToken = st.lastToken := rfl

@[simp] theorem pushModeFn_spans (l : Lexer) (m : String) (st : ScanState) :
    (pushModeFn l m st).spans = st.spans := rfl

theorem afterPop_eq_none (l : Lexer) (st : ScanState) (i : Nat)
    (h : st.cur.patternIdxToPushMode.getD i none = none) : afterPop l st i = st := by
  unfold afterPop
  rw [h]

theorem afterPop_eq_some (l : Lexer) (st : ScanState) (i : Nat) (m : String)
    (h : st.cur.patternIdxToPushMode.getD i none = some m) :
    afterPop l st i = pushModeFn l m st := by
  unfold afterPop
  rw [h]

theorem stepMatch_group_none (l : Lexer) (st : ScanState) (i len : Nat)
    (hg : st.cur.patternIdxToGroup.getD i none = none) :
    stepMatch l st i len = afterMode l (advanceState st i len) i st.lastToken := by
  unfold stepMatch
  rw [hg]

theorem stepMatch_group_some (l : Lexer) (st : ScanState) (i len : Nat) (g : String)
    (hg : st.cur.patternIdxToGroup.getD i none = some g) :
    stepMatch l st i len = afterMode l
      { advanceState st i len with
        matchedTokens := if g = "default" then st.matchedTokens ++ [matchTok st i len]
          else st.matchedTokens
        groups := if g = "default" then st.groups else pushGroup st.groups g (matchTok st i len)
        lastToken := some (matchTok st i len) } i (some (matchTok st i len)) := by
  unfold stepMatch
  rw [hg]

theorem afterMode_pop_ok (l : Lexer) (st : ScanState) (i : Nat) (ntok : Option TokenRecord)
    (st2 : ScanState) (hpop : st.cur.patternIdxToPopMode.getD i false = true)
    (hpm : popModeFn l ntok st = .ok st2) :
    afterMode l st i ntok = .ok (afterPop l st2 i) := by
  unfold afterMode
  rw [if_pos (by simpa using hpop), hpm]

theorem afterMode_pop_error (l : Lexer) (st : ScanState) (i : Nat) (ntok : Option TokenRecord)
    (e : RTErr) (hpop : st.cur.patternIdxToPopMode.getD i false = true)
    (hpm : popModeFn l ntok st = .error e) :
    afterMode l st i ntok = .error e := by
  unfold afterMode
  rw [if_pos (by simpa using hpop), hpm]

theorem afterMode_nopop (l : Lexer) (st : ScanState) (i : Nat) (ntok : Option TokenRecord)
    (hpop : st.cur.patternIdxToPopMode.getD i false = false) :
    afterMode l st i ntok = .ok (afterPop l st i) := by
  unfold afterMode
  rw [if_neg (by rw [hpop]; simp)]

theorem stepFrame_rfl (l : Lexer) (st : ScanState) : StepFrame l st st :=
  ⟨rfl, rfl, rfl, rfl, rfl, rfl, rfl, rfl, rfl, Or.inl rfl, [], by simp⟩

theorem stepFrame_trans (l : Lexer) (st1 st2 st3 : ScanState)
    (h12 : StepFrame l st1 st2) (h23 : StepFrame l st2 st3) : StepFrame l st1 st3 := by
  obtain ⟨a1, b1, c1, d1, e1, f1, g1, h1, i1, j1, es1, k1⟩ := h12
  obtain ⟨a2, b2, c2, d2, e2, f2, g2, h2, i2, j2, es2, k2⟩ := h23
  refine ⟨by rw [a2, a1], by rw [b2, b1], by rw [c2, c1], by rw [d2, d1], by rw [e2, e1],
    by rw [f2, f1], by rw [g2, g1], by rw [h2, h1], by rw [i2, i1], ?_, es1 ++ es2,
    by rw [k2, k1, List.append_assoc]⟩
  rcases j2 with j2 | ⟨m, j2⟩
  · rw [j2]
    exact j1
  · exact Or.inr ⟨m, j2⟩

theorem afterPop_frame (l : Lexer) (st : ScanState) (i : Nat) :
    StepFrame l st (afterPop l st i) := by
  cases hpush : st.cur.patternIdxToPushMode.getD i none with
  | none =>
    rw [afterPop_eq_none l st i hpush]
    exact stepFrame_rfl l st
  | some m =>
    rw [afterPop_eq_some l st i m hpush]
    exact ⟨rfl, rfl, rfl, rfl, rfl, rfl, rfl, rfl, rfl, Or.inr ⟨m, rfl⟩, [], by simp⟩

theorem popModeFn_some_ok (l : Lexer) (tok : TokenRecord) (st : ScanState) :
    ∃ st2, popModeFn l (some tok) st = .ok st2 := by
  unfold popModeFn
  split
  · exact ⟨_, rfl⟩
  · split
    · exact ⟨_, rfl⟩
    · exact ⟨_, rfl⟩

theorem popModeFn_frame (l : Lexer) (ntok : Option TokenRecord) (st st2 : ScanState)
    (h : popModeFn l ntok st = .ok st2) : StepFrame l st st2 := by
  unfold popModeFn at h
  split at h
  · split at h
    · cases h
    · cases h
      exact ⟨rfl, rfl, rfl, rfl, rfl, rfl, rfl, rfl, rfl, Or.inl rfl, _, rfl⟩
  · split at h
    · cases h
      rename_i hd newMode rest heq
      exact ⟨rfl, rfl, rfl, rfl, rfl, rfl, rfl, rfl, rfl, Or.inr ⟨newMode, rfl⟩, [], by simp⟩
    · cases h
      exact stepFrame_rfl l _

theorem afterMode_some_frame (l : Lexer) (st : ScanState) (i : Nat) (tok : TokenRecord) :
    ∃ st1, afterMode l st i (some tok) = .ok st1 ∧ StepFrame l st st1 := by
  by_cases hpop : st.cur.patternIdxToPopMode.getD i false = true
  · obtain ⟨st2, hpm⟩ := popModeFn_some_ok l tok st
    rw [afterMode_pop_ok l st i (some tok) st2 hpop hpm]
    exact ⟨_, rfl, stepFrame_trans l st st2 _ (popModeFn_frame l (some tok) st st2 hpm)
      (afterPop_frame l st2 i)⟩
  · rw [afterMode_nopop l st i (some tok) (by revert hpop; cases h : st.cur.patternIdxToPopMode.getD i false <;> simp)]
    exact ⟨_, rfl, afterPop_frame l st i⟩

theorem afterMode_frame (l : Lexer) (st : ScanState) (i : Nat) (ntok : Option TokenRecord) :
    afterMode l st i ntok = .error .typeErrorUndefinedToken ∨
    ∃ st1, afterMode l st i ntok = .ok st1 ∧ StepFrame l st st1 := by
  by_cases hpop : st.cur.patternIdxToPopMode.getD i false = true
  · cases hpm : popModeFn l ntok st with
    | ok st2 =>
      rw [afterMode_pop_ok l st i ntok st2 hpop hpm]
      exact Or.inr ⟨_, rfl, stepFrame_trans l st st2 _ (popModeFn_frame l ntok st st2 hpm)
        (afterPop_frame l st2 i)⟩
    | error e =>
      cases e
      rw [afterMode_pop_error l st i ntok _ hpop hpm]
      exact Or.inl rfl
  · rw [afterMode_nopop l st i ntok (by revert hpop; cases h : st.cur.patternIdxToPopMode.getD i false <;> simp)]
    exact Or.inr ⟨_, rfl, afterPop_frame l st i⟩

theorem stepMatch_cases (l : Lexer) (st : ScanState) (i len : Nat) :
    stepMatch l st i len = .error .typeErrorUndefinedToken ∨
    ∃ st1, stepMatch l st i len = .ok st1 ∧
      st1.orgInput = st.orgInput ∧
      st1.text = st.text.drop (st.text.take len).length ∧
      st1.offset = st.offset + (st.text.take len).length ∧
      st1.spans = st.spans ++ [(st.offset, st.text.take len)] ∧
      (st1.cur = st.cur ∨ ∃ m, st1.cur = l.tables m) ∧
      TokensUpd st st1 st.offset (st.text.take len) := by
  cases hg : st.cur.patternIdxToGroup.getD i none with
  | none =>
    rw [stepMatch_group_none l st i len hg]
    rcases afterMode_frame l (advanceState st i len) i st.lastToken with herr | ⟨st1, hok, hfr⟩
    · exact Or.inl herr
    · obtain ⟨a, b, c, d, e, f, g0, h0, i0, j0, es, k0⟩ := hfr
      refine Or.inr ⟨st1, hok, by simpa using a, by simpa using b, by simpa using c,
        by simpa using i0, ?_, Or.inl ⟨by simpa using f, by simpa using g0⟩⟩
      rcases j0 with j0 | ⟨m, j0⟩
      · exact Or.inl (by simpa using j0)
      · exact Or.inr ⟨m, j0⟩
  | some g =>
    rw [stepMatch_group_some l st i len g hg]
    obtain ⟨st1, hok, hfr⟩ := afterMode_some_frame l
      { advanceState st i len with
        matchedTokens := if g = "default" then st.matchedTokens ++ [matchTok st i len]
          else st.matchedTokens
        groups := if g = "default" then st.groups else pushGroup st.groups g (matchTok st i len)
        lastToken := some (matchTok st i len) } i (matchTok st i len)
    obtain ⟨a, b, c, d, e, f, g0, h0, i0, j0, es, k0⟩ := hfr
    refine Or.inr ⟨st1, hok, by simpa using a, by simpa using b, by simpa using c,
      by simpa using i0, ?_, ?_⟩
    · rcases j0 with j0 | ⟨m, j0⟩
      · exact Or.inl (by simpa using j0)
      · exact Or.inr ⟨m, j0⟩
    · by_cases hdef : g = "default"
      · refine Or.inr ⟨matchTok st i len, rfl, rfl, Or.inl ⟨?_, ?_⟩⟩
        · rw [f]
          simp [hdef]
        · rw [g0]
          simp [hdef]
      · refine Or.inr ⟨matchTok st i len, rfl, rfl, Or.inr ⟨?_, g, ?_⟩⟩
        · rw [f]
          simp [hdef]
        · rw [g0]
          simp [hdef]

/-- C7.  When a SKIPPED match (group `undefined`, so no token object is
constructed and `newToken` keeps its previous value) has `pop_mode` set while
the mode stack holds exactly one mode, the error record appended by
`pop_mode` is built from the most recently constructed non-skipped token; and
when no non-skipped token has been constructed yet in this `tokenize` call,
the property accesses on the `undefined` token raise a runtime TypeError
instead of appending a recoverable error — as the concrete lexer whose only
descriptor is SKIPPED-with-pop shows at the whole-call level. -/
theorem spec_c7 (l : Lexer) (st : ScanState) (i len : Nat)
    (hg : st.cur.patternIdxToGroup.getD i none = none)
    (hpop : st.cur.patternIdxToPopMode.getD i false = true)
    (hstack : st.modeStack.length = 1) :
    (st.lastToken = none → stepMatch l st i len = .error .typeErrorUndefinedToken) ∧
    (∀ tk, st.lastToken = some tk → ∃ st1,
      stepMatch l st i len = .ok st1 ∧
      st1.errors = st.errors ++
        [{ line := tk.startLine, column := tk.startColumn,
           length := tk.image.length, message := popMsg (String.mk tk.image) }] ∧
      st1.lastToken = some tk ∧
      st1.matchedTokens = st.matchedTokens ∧
      st1.groups = st.groups) ∧
    skipPopLexer.tokenize ['s'] "M" = .typeError := by
  refine ⟨?_, ?_, by decide⟩
  · intro hnone
    rw [stepMatch_group_none l st i len hg, hnone]
    rw [afterMode_pop_error l _ i none _ (by simpa using hpop)
      (popModeFn_singleton_none l _ (by simpa using hstack))]
  · intro tk htk
    rw [stepMatch_group_none l st i len hg, htk]
    rw [afterMode_pop_ok l _ i (some tk) _ (by simpa using hpop)
      (popModeFn_singleton_some l tk _ (by simpa using hstack))]
    cases hpush : st.cur.patternIdxToPushMode.getD i none with
    | none =>
      rw [afterPop_eq_none l _ i (by simpa using hpush)]
      exact ⟨_, rfl, by simp, by simp [htk], by simp, by simp⟩
    | some p =>
      rw [afterPop_eq_some l _ i p (by simpa using hpush)]
      exact ⟨_, rfl, by simp, by simp [htk], by simp, by simp⟩

theorem spec_c7_witness :
    (initState skipPopLexer ['s'] "M").lastToken = none ∧
    stepMatch skipPopLexer (initState skipPopLexer ['s'] "M") 0 1 =
      .error .typeErrorUndefinedToken := by
  have h := spec_c7 skipPopLexer (initState skipPopLexer ['s'] "M") 0 1
    (by decide) (by decide) (by decide)
  exact ⟨rfl, h.1 rfl⟩

theorem advancePos_spec (img : List Char) (line ncol idx : Nat)
    (hcount : countLineTerminators img ≠ 0)
    (hidx : lastLTIdx img = some idx) :
    (advancePos true img line ncol).1 = line + countLineTerminators img ∧
    (advancePos true img line ncol).2.1 = img.length - idx ∧
    ((countLineTerminators img = 1 ∧ idx = img.length - 1) →
      (advancePos true img line ncol).2.2.1 = none ∧
      (advancePos true img line ncol).2.2.2 = none) ∧
    (¬(countLineTerminators img = 1 ∧ idx = img.length - 1) → idx = img.length - 1 →
      (advancePos true img line ncol).2.2.1 = some (line + countLineTerminators img - 1) ∧
      (advancePos true img line ncol).2.2.2 = some (img.length - idx - 1 + 1)) ∧
    (idx ≠ img.length - 1 →
      (advancePos true img line ncol).2.2.1 = some (line + countLineTerminators img) ∧
      (advancePos true img line ncol).2.2.2 = some (img.length - idx - 1)) := by
  by_cases h2 : idx = img.length - 1
  · by_cases h1 : countLineTerminators img = 1
    · simp [advancePos, hidx, hcount, h1, h2]
    · simp [advancePos, hidx, hcount, h1, h2]
  · simp [advancePos, hidx, hcount, h2]

/-- C3.  For a matched non-skipped token whose descriptor can match line
terminators and whose lexeme of length `len` contains at least one line
terminator (`idx` is the 0-based index of the last LF or CR in the lexeme):
the engine sets `line := line + count` and `column := len - idx`, and then,
when the lexeme contains exactly one line terminator which is its final
character, the `endLine`/`endColumn` of the token are left unset at their
defaults; otherwise `endLine = line - 1` and `endColumn = column - 1 + 1`
when the last character is a line terminator, and `endLine = line`,
`endColumn = column - 1` when it is not. -/
theorem spec_c3 (l : Lexer) (st : ScanState) (i len idx : Nat) (g : String)
    (hg : st.cur.patternIdxToGroup.getD i none = some g)
    (hcan : st.cur.patternIdxToCanLineTerminator.getD i false = true)
    (hlen : len ≤ st.text.length)
    (hcount : countLineTerminators (st.text.take len) ≠ 0)
    (hidx : lastLTIdx (st.text.take len) = some idx) :
    ∃ st1 tok, stepMatch l st i len = .ok st1 ∧
      st1.lastToken = some tok ∧
      tok.image = st.text.take len ∧
      st1.line = st.line + countLineTerminators (st.text.take len) ∧
      st1.column = len - idx ∧
      ((countLineTerminators (st.text.take len) = 1 ∧ idx = len - 1) →
        tok.endLine = none ∧ tok.endColumn = none) ∧
      (¬(countLineTerminators (st.text.take len) = 1 ∧ idx = len - 1) → idx = len - 1 →
        tok.endLine = some (st.line + countLineTerminators (st.text.take len) - 1) ∧
        tok.endColumn = some ((len - idx) - 1 + 1)) ∧
      (idx ≠ len - 1 →
        tok.endLine = some (st.line + countLineTerminators (st.text.take len)) ∧
        tok.endColumn = some ((len - idx) - 1)) ∧
      (g = "default" → st1.matchedTokens = st.matchedTokens ++ [tok]) := by
  have hL : (st.text.take len).length = len := by
    rw [List.length_take]
    omega
  obtain ⟨hline, hcol, hcase1, hcase2, hcase3⟩ :=
    advancePos_spec (st.text.take len) st.line (st.column + (st.text.take len).length) idx
      hcount hidx
  rw [stepMatch_group_some l st i len g hg]
  obtain ⟨st1, hok, hfr⟩ := afterMode_some_frame l
    { advanceState st i len with
      matchedTokens := if g = "default" then st.matchedTokens ++ [matchTok st i len]
        else st.matchedTokens
      groups := if g = "default" then st.groups else pushGroup st.groups g (matchTok st i len)
      lastToken := some (matchTok st i len) } i (matchTok st i len)
  obtain ⟨a, b, c, d, e, f, g0, h0, i0, j0, es, k0⟩ := hfr
  refine ⟨st1, matchTok st i len, hok, by simpa using h0, rfl, ?_, ?_, ?_, ?_, ?_, ?_⟩
  · have : st1.line = (advancePos (st.cur.patternIdxToCanLineTerminator.getD i false)
        (st.text.take len) st.line (st.column + (st.text.take len).length)).1 := by
      simpa using d
    rw [this, hcan, hline]
  · have : st1.column = (advancePos (st.cur.patternIdxToCanLineTerminator.getD i false)
        (st.text.take len) st.line (st.column + (st.text.take len).length)).2.1 := by
      simpa using e
    rw [this, hcan, hcol, hL]
  · intro hc
    have h1 := hcase1 ⟨hc.1, by rw [hL]; exact hc.2⟩
    constructor
    · rw [matchTok_endLine, hcan, h1.1]
    · rw [matchTok_endColumn, hcan, h1.2]
  · intro hc hlast
    have h2 := hcase2 (by rw [hL]; exact hc) (by rw [hL]; exact hlast)
    constructor
    · rw [matchTok_endLine, hcan, h2.1]
    · rw [matchTok_endColumn, hcan, h2.2, hL]
  · intro hne
    have h3 := hcase3 (by rw [hL]; exact hne)
    constructor
    · rw [matchTok_endLine, hcan, h3.1]
    · rw [matchTok_endColumn, hcan, h3.2, hL]
  · intro hdef
    rw [f]
    simp [hdef]

theorem spec_c3_witness :
    ∃ st1 tok,
      stepMatch mlLexer (initState mlLexer ("a\nb".toList) "default_mode") 0 3 = .ok st1 ∧
      st1.lastToken = some tok ∧
      tok.image = "a\nb".toList ∧
      st1.line = 2 ∧
      st1.column = 2 ∧
      tok.endLine = some 2 ∧
      tok.endColumn = some 1 ∧
      st1.matchedTokens = [] ++ [tok] := by
  have h := spec_c3 mlLexer (initState mlLexer ("a\nb".toList) "default_mode") 0 3 1 "default"
    (by decide) (by decide) (by decide) (by decide) (by decide)
  obtain ⟨st1, tok, hok, hlast, him, hline, hcol, _, _, hcase3, hdef⟩ := h
  obtain ⟨hel, hec⟩ := hcase3 (by decide)
  exact ⟨st1, tok, hok, hlast, him, hline, hcol, hel, hec, hdef rfl⟩

/-- C5, counterexample.  The claim predicts that a token setting both
`pop_mode` and `push_mode` first pops and then pushes its declared target:
from mode stack `["A", "B"]` (top first), the token of mode "A" with
`push_mode = "C"` should leave the stack `["C", "B"]`.  On the code,
`pop_mode` reloads the local `patternIdxToPushMode` array from the new top
mode "B", whose table has no entry at the index, so no push happens and the
stack is left `["B"]`. -/
theorem spec_c5_counterexample :
    tableA.patternIdxToPopMode.getD 0 false = true ∧
    tableA.patternIdxToPushMode.getD 0 none = some "C" ∧
    abcState.modeStack = ["A", "B"] ∧
    modeStackOf (stepMatch abcLexer abcState 0 1) = ["B"] ∧
    modeStackOf (stepMatch abcLexer abcState 0 1) ≠ ["C", "B"] := by
  refine ⟨by decide, by decide, rfl, by decide, by decide⟩

/-- C5, amended.  When a matched non-skipped token (the token is constructed
and routed to its group) has `pop_mode` set and the mode stack holds exactly
one mode, the engine appends a recoverable lexing error record carrying the
token's start line, start column and image length, the pop leaves the stack
as it was, the token is still emitted, and scanning continues (`stepMatch`
returns normally).  When the token also sets `push_mode`, the pop is
performed before the push check, and that check consults the
`patternIdxToPushMode` table that is current after the pop at the same
pattern index: after the failed singleton-stack pop this is the original
mode's table (so the token's own push target is pushed), while after a
successful pop it is the new top mode's table (so the token's own push
target is not necessarily pushed). -/
theorem spec_c5_amended (l : Lexer) (st : ScanState) (i len : Nat) (g : String)
    (hg : st.cur.patternIdxToGroup.getD i none = some g)
    (hpop : st.cur.patternIdxToPopMode.getD i false = true) :
    (∀ m0, st.modeStack = [m0] →
      ∃ st1 tok, stepMatch l st i len = .ok st1 ∧
        st1.lastToken = some tok ∧
        tok.image = st.text.take len ∧
        tok.startLine = st.line ∧
        tok.startColumn = st.column ∧
        st1.errors = st.errors ++
          [{ line := st.line, column := st.column, length := (st.text.take len).length,
             message := popMsg (String.mk (st.text.take len)) }] ∧
        (g = "default" → st1.matchedTokens = st.matchedTokens ++ [tok]) ∧
        (g ≠ "default" → st1.groups = pushGroup st.groups g tok) ∧
        st1.modeStack = (match st.cur.patternIdxToPushMode.getD i none with
          | some p => p :: [m0]
          | none => [m0]) ∧
        (st.cur.patternIdxToPushMode.getD i none = none → st1.cur = st.cur)) ∧
    (∀ a b rest, st.modeStack = a :: b :: rest →
      ∃ st1, stepMatch l st i len = .ok st1 ∧
        st1.errors = st.errors ∧
        st1.modeStack = (match (l.tables b).patternIdxToPushMode.getD i none with
          | some p => p :: b :: rest
          | none => b :: rest)) := by
  constructor
  · intro m0 hm0
    rw [stepMatch_group_some l st i len g hg]
    rw [afterMode_pop_ok l _ i (some (matchTok st i len)) _ (by simpa using hpop)
      (popModeFn_singleton_some l _ _ (by simp [hm0]))]
    cases hpush : st.cur.patternIdxToPushMode.getD i none with
    | none =>
      rw [afterPop_eq_none l _ i (by simpa using hpush)]
      refine ⟨_, _, rfl, rfl, rfl, rfl, rfl, rfl, ?_, ?_, ?_, ?_⟩
      · intro hdef
        simp [hdef]
      · intro hndef
        simp [hndef]
      · simpa using hm0
      · intro _
        rfl
    | some p =>
      rw [afterPop_eq_some l _ i p (by simpa using hpush)]
      refine ⟨_, _, rfl, rfl, rfl, rfl, rfl, rfl, ?_, ?_, ?_, ?_⟩
      · intro hdef
        simp [hdef]
      · intro hndef
        simp [hndef]
      · simp [hm0]
      · intro hnone
        cases hnone
  · intro a b rest hst
    rw [stepMatch_group_some l st i len g hg]
    rw [afterMode_pop_ok l _ i (some (matchTok st i len)) _ (by simpa using hpop)
      (popModeFn_cons l _ _ a b rest (by simpa using hst))]
    cases hpush : (l.tables b).patternIdxToPushMode.getD i none with
    | none =>
      rw [afterPop_eq_none l _ i (by simpa using hpush)]
      exact ⟨_, rfl, rfl, rfl⟩
    | some p =>
      rw [afterPop_eq_some l _ i p (by simpa using hpush)]
      exact ⟨_, rfl, rfl, rfl⟩

theorem spec_c5_amended_witness :
    (initState popDefLexer ['x'] "M").modeStack = ["M"] ∧
    (∃ st1 tok, stepMatch popDefLexer (initState popDefLexer ['x'] "M") 0 1 = .ok st1 ∧
      st1.lastToken = some tok ∧
      tok.image = ['x'] ∧
      tok.startLine = 1 ∧
      tok.startColumn = 1 ∧
      st1.errors =
        [{ line := 1, column := 1, length := 1, message := popMsg (String.mk ['x']) }] ∧
      st1.matchedTokens = [] ++ [tok] ∧
      st1.modeStack = ["M"] ∧
      st1.cur = (initState popDefLexer ['x'] "M").cur) := by
  have h := spec_c5_amended popDefLexer (initState popDefLexer ['x'] "M") 0 1 "default"
    (by decide) (by decide)
  obtain ⟨st1, tok, hok, hlast, him, hsl, hsc, herr, hdef, _, hstk, hcur⟩ := h.1 "M" rfl
  exact ⟨rfl, st1, tok, hok, hlast, him, hsl, hsc, herr, hdef rfl, hstk, hcur rfl⟩

/-! Lemmas about the error-recovery skip loop. -/

theorem recoverLoopAux_spec (pats : List Pat) (text : List Char) :
    ∀ (offset line column : Nat), text ≠ [] →
    ∃ n l2 c2, recoverLoopAux pats text offset line column = (text.drop n, offset + n, l2, c2) ∧
      1 ≤ n ∧ n ≤ text.length ∧
      (anyPatternMatches pats (text.drop n) = true ∨ n = text.length) ∧
      (∀ k, 1 ≤ k → k < n → anyPatternMatches pats (text.drop k) = false) := by
  induction text with
  | nil => intro _ _ _ h; cases h rfl
  | cons c rest ih =>
    intro offset line column _
    by_cases hm : anyPatternMatches pats rest = true
    · have heq : recoverLoopAux pats (c :: rest) offset line column =
          ((c :: rest).drop 1, offset + 1,
           (if c = '\n' ∨ (c = '\r' ∧ rest.head? ≠ some '\n') then (line + 1, 1)
             else (line, column + 1)).1,
           (if c = '\n' ∨ (c = '\r' ∧ rest.head? ≠ some '\n') then (line + 1, 1)
             else (line, column + 1)).2) := by
        simp only [recoverLoopAux]
        rw [if_pos hm]
        rfl
      exact ⟨1, _, _, heq, le_refl 1, by simp, Or.inl (by simpa using hm),
        fun k h1 h2 => by omega⟩
    · have hm' : anyPatternMatches pats rest = false := by
        revert hm
        cases anyPatternMatches pats rest <;> simp
      by_cases hr : rest = []
      · subst hr
        have heq : recoverLoopAux pats [c] offset line column =
            (([c] : List Char).drop 1, offset + 1,
             (if c = '\n' ∨ (c = '\r' ∧ ([] : List Char).head? ≠ some '\n') then (line + 1, 1)
               else (line, column + 1)).1,
             (if c = '\n' ∨ (c = '\r' ∧ ([] : List Char).head? ≠ some '\n') then (line + 1, 1)
               else (line, column + 1)).2) := by
          simp only [recoverLoopAux]
          rw [if_neg (by rw [hm']; simp)]
          rfl
        exact ⟨1, _, _, heq, le_refl 1, by simp, Or.inr (by simp),
          fun k h1 h2 => by omega⟩
      · obtain ⟨n, l2, c2, heq, h1, hle, hstop, hmin⟩ :=
          ih (offset + 1)
            (if c = '\n' ∨ (c = '\r' ∧ rest.head? ≠ some '\n') then line + 1 else line)
            (if c = '\n' ∨ (c = '\r' ∧ rest.head? ≠ some '\n') then 1 else column + 1)
            hr
        have harg : recoverLoopAux pats rest (offset + 1)
            (if c = '\n' ∨ (c = '\r' ∧ rest.head? ≠ some '\n') then (line + 1, 1)
              else (line, column + 1)).1
            (if c = '\n' ∨ (c = '\r' ∧ rest.head? ≠ some '\n') then (line + 1, 1)
              else (line, column + 1)).2 =
            recoverLoopAux pats rest (offset + 1)
              (if c = '\n' ∨ (c = '\r' ∧ rest.head? ≠ some '\n') then line + 1 else line)
              (if c = '\n' ∨ (c = '\r' ∧ rest.head? ≠ some '\n') then 1 else column + 1) := by
          by_cases hc : c = '\n' ∨ (c = '\r' ∧ rest.head? ≠ some '\n')
          · rw [if_pos hc, if_pos hc, if_pos hc]
          · rw [if_neg hc, if_neg hc, if_neg hc]
        have heqfull : recoverLoopAux pats (c :: rest) offset line column =
            ((c :: rest).drop (n + 1), offset + (n + 1), l2, c2) := by
          have hdrop : (c :: rest).drop (n + 1) = rest.drop n := by simp
          have hoffs : offset + (n + 1) = offset + 1 + n := by omega
          rw [hdrop, hoffs]
          simp only [recoverLoopAux]
          rw [if_neg (by rw [hm']; simp)]
          rw [harg]
          exact heq
        refine ⟨n + 1, l2, c2, heqfull, by omega, by simpa using Nat.add_le_add_right hle 1,
          ?_, ?_⟩
        · rcases hstop with hs | hs
          · exact Or.inl (by simpa using hs)
          · exact Or.inr (by simp [hs])
        · intro k hk1 hk2
          rcases Nat.lt_or_ge k 2 with hk | hk
          · have hk1' : k = 1 := by omega
            subst hk1'
            simpa using hm'
          · have hd : (c :: rest).drop k = rest.drop (k - 1) := by
              cases k with
              | zero => omega
              | succ k0 => simp
            rw [hd]
            exact hmin (k - 1) (by omega) (by omega)

theorem stepNoMatch_spec (l : Lexer) (st : ScanState) (hne : st.text ≠ []) :
    ∃ n l2 c2 msg,
      1 ≤ n ∧ n ≤ st.text.length ∧
      stepNoMatch l st = { st with
        text := st.text.drop n
        offset := st.offset + n
        line := l2
        column := c2
        errors := st.errors ++
          [{ line := st.line, column := st.column, length := n, message := msg }]
        spans := st.spans ++ [(st.offset, st.text.take n)] } ∧
      (anyPatternMatches st.cur.patterns (st.text.drop n) = true ∨ n = st.text.length) ∧
      (∀ k, 1 ≤ k → k < n → anyPatternMatches st.cur.patterns (st.text.drop k) = false) := by
  obtain ⟨n, l2, c2, heq, h1, hle, hstop, hmin⟩ :=
    recoverLoopAux_spec st.cur.patterns st.text st.offset st.line st.column hne
  refine ⟨n, l2, c2,
    "unexpected character: ->" ++ String.mk [st.orgInput.getD st.offset ' '] ++
      "<- at offset: " ++ toString st.offset ++ ", skipped " ++ toString n ++ " characters.",
    h1, hle, ?_, hstop, hmin⟩
  unfold stepNoMatch
  rw [heq]
  simp only [Nat.add_sub_cancel_left]

/-- C4.  When no pattern of the current mode matches the remaining (nonempty)
text, the engine skips characters one at a time, re-testing every pattern of
the current mode after each skip and stopping as soon as one matches or the
input is exhausted, then appends exactly one error record whose line and
column are the position where skipping began and whose length is the number
of characters skipped; a single skipped character updates line and column by
the line-terminator rule (a LF, or a CR not immediately followed by LF,
starts a new line).  Concretely, with catalog `/[a-z]+/` on input
`"abc!!def"`, tokenize emits the token "abc" at offset 0, one error at
offset 3 with length 2, line 1, column 4, then the token "def" at offset 5,
line 1, column 6. -/
theorem spec_c4 (l : Lexer) (st : ScanState) (hne : st.text ≠ []) :
    (∃ n l2 c2 msg,
      1 ≤ n ∧ n ≤ st.text.length ∧
      stepNoMatch l st = { st with
        text := st.text.drop n
        offset := st.offset + n
        line := l2
        column := c2
        errors := st.errors ++
          [{ line := st.line, column := st.column, length := n, message := msg }]
        spans := st.spans ++ [(st.offset, st.text.take n)] } ∧
      (anyPatternMatches st.cur.patterns (st.text.drop n) = true ∨ n = st.text.length) ∧
      (∀ k, 1 ≤ k → k < n → anyPatternMatches st.cur.patterns (st.text.drop k) = false)) ∧
    (∀ c rest, st.text = c :: rest → anyPatternMatches st.cur.patterns rest = true →
      ∃ msg, stepNoMatch l st = { st with
        text := rest
        offset := st.offset + 1
        line := if c = '\n' ∨ (c = '\r' ∧ rest.head? ≠ some '\n') then st.line + 1 else st.line
        column := if c = '\n' ∨ (c = '\r' ∧ rest.head? ≠ some '\n') then 1 else st.column + 1
        errors := st.errors ++
          [{ line := st.line, column := st.column, length := 1, message := msg }]
        spans := st.spans ++ [(st.offset, st.text.take 1)] }) ∧
    demoLexer.tokenize ("abc!!def".toList) "default_mode" = .ok
      { tokens := [⟨"abc".toList, 0, 1, 1, 0, none, none⟩, ⟨"def".toList, 5, 1, 6, 0, none, none⟩]
        groups := []
        errors :=
          [⟨1, 4, 2, "unexpected character: ->!<- at offset: 3, skipped 2 characters."⟩] } := by
  refine ⟨stepNoMatch_spec l st hne, ?_, by decide⟩
  intro c rest hct hm
  have heq : recoverLoopAux st.cur.patterns st.text st.offset st.line st.column =
      (rest, st.offset + 1,
       (if c = '\n' ∨ (c = '\r' ∧ rest.head? ≠ some '\n') then (st.line + 1, 1)
         else (st.line, st.column + 1)).1,
       (if c = '\n' ∨ (c = '\r' ∧ rest.head? ≠ some '\n') then (st.line + 1, 1)
         else (st.line, st.column + 1)).2) := by
    rw [hct]
    simp only [recoverLoopAux]
    rw [if_pos hm]
  refine ⟨"unexpected character: ->" ++ String.mk [st.orgInput.getD st.offset ' '] ++
    "<- at offset: " ++ toString st.offset ++ ", skipped " ++ toString (1 : Nat) ++
    " characters.", ?_⟩
  unfold stepNoMatch
  rw [heq]
  simp only [Nat.add_sub_cancel_left]
  by_cases hc : c = '\n' ∨ (c = '\r' ∧ rest.head? ≠ some '\n')
  · simp only [if_pos hc]
  · simp only [if_neg hc]

theorem spec_c4_witness :
    (initState demoLexer ("!!def".toList) "default_mode").text ≠ [] ∧
    (∃ n l2 c2 msg,
      1 ≤ n ∧ n ≤ ("!!def".toList).length ∧
      stepNoMatch demoLexer (initState demoLexer ("!!def".toList) "default_mode") =
        { initState demoLexer ("!!def".toList) "default_mode" with
          text := ("!!def".toList).drop n
          offset := 0 + n
          line := l2
          column := c2
          errors := [] ++ [{ line := 1, column := 1, length := n, message := msg }]
          spans := [] ++ [(0, ("!!def".toList).take n)] } ∧
      (anyPatternMatches demoTable.patterns (("!!def".toList).drop n) = true ∨
        n = ("!!def".toList).length) ∧
      (∀ k, 1 ≤ k → k < n →
        anyPatternMatches demoTable.patterns (("!!def".toList).drop k) = false)) := by
  have h := spec_c4 demoLexer (initState demoLexer ("!!def".toList) "default_mode") (by decide)
  exact ⟨by decide, h.1⟩

/-- C8.  If construction reports any definition error and deferred handling
was not requested, the constructor throws with all error messages
concatenated; if deferred handling was requested, construction succeeds,
the errors are exposed on the public `lexerDefinitionErrors` field, and
every subsequent `tokenize` call throws (the same outcome for every input,
before any scanning). -/
theorem spec_c8 (compiled : CompiledDef) (defErrors : List String)
    (hne : defErrors ≠ []) :
    mkLexer compiled defErrors false = .error
      ("Errors detected in definition of Lexer:\n" ++ joinDefErrors defErrors) ∧
    ∃ lex, mkLexer compiled defErrors true = .ok lex ∧
      lex.lexerDefinitionErrors = defErrors ∧
      ∀ text m, lex.tokenize text m = .defErr
        ("Unable to Tokenize because Errors detected in definition of Lexer:\n" ++
          joinDefErrors defErrors) := by
  constructor
  · unfold mkLexer
    rw [if_pos ⟨hne, rfl⟩]
  · unfold mkLexer
    rw [if_neg (by simp)]
    refine ⟨_, rfl, rfl, ?_⟩
    intro text m
    unfold Lexer.tokenize
    rw [if_pos hne]

theorem spec_c8_witness :
    mkLexer trivCompiled ["boom"] false = .error
      ("Errors detected in definition of Lexer:\n" ++ joinDefErrors ["boom"]) ∧
    ∃ lex, mkLexer trivCompiled ["boom"] true = .ok lex ∧
      lex.lexerDefinitionErrors = ["boom"] ∧
      lex.tokenize ("abc".toList) "default_mode" = .defErr
        ("Unable to Tokenize because Errors detected in definition of Lexer:\n" ++
          joinDefErrors ["boom"]) := by
  have h := spec_c8 trivCompiled ["boom"] (by decide)
  obtain ⟨h1, lex, h2, h3, h4⟩ := h
  exact ⟨h1, lex, h2, h3, h4 ("abc".toList) "default_mode"⟩

/-- C10.  `tokenize` reads the compiled tables and `emptyGroups` but never
writes the lexer instance, and each call allocates fresh accumulators and a
fresh mode stack; therefore in any session of calls sharing one instance,
the result of a call depends only on its own text and initial mode — the
same call gives identical results at any position and under any
interleaving of other calls. -/
theorem spec_c10 (l : Lexer) (pre post : List (List Char × String)) (t : List Char)
    (m : String) :
    runSession l (pre ++ (t, m) :: post) =
      runSession l pre ++ l.tokenize t m :: runSession l post ∧
    (runSession l (pre ++ (t, m) :: post)).get? pre.length = some (l.tokenize t m) ∧
    ∀ pre2 post2, (runSession l (pre2 ++ (t, m) :: post2)).get? pre2.length =
      (runSession l (pre ++ (t, m) :: post)).get? pre.length := by
  have key : ∀ (pre3 post3 : List (List Char × String)),
      (runSession l (pre3 ++ (t, m) :: post3)).get? pre3.length = some (l.tokenize t m) := by
    intro pre3 post3
    unfold runSession
    rw [List.map_append, List.map_cons]
    rw [List.get?_append_right (by simp)]
    simp
  refine ⟨?_, key pre post, ?_⟩
  · unfold runSession
    rw [List.map_append, List.map_cons]
  · intro pre2 post2
    rw [key pre2 post2, key pre post]

/-! Termination of the scan loop. -/

theorem lowercasePlus_ge_one (s : List Char) (n : Nat) (h : lowercasePlus s = some n) :
    1 ≤ n := by
  unfold lowercasePlus classPlusPat at h
  split at h
  · cases h
  · cases h
    omega

theorem demoLexer_nz : NoZeroLen demoLexer := by
  intro m p hp s n h
  have hp' : p = lowercasePlus := by simpa [demoLexer, demoTable] using hp
  subst hp'
  exact lowercasePlus_ge_one s n h

theorem tokenizeLoop_succ_done (l : Lexer) (fuel : Nat) (st : ScanState)
    (hempty : st.text = []) : tokenizeLoop l (fuel + 1) st = .done st := by
  conv_lhs => rw [tokenizeLoop]
  rw [if_pos hempty]

theorem tokenizeLoop_succ_none (l : Lexer) (fuel : Nat) (st : ScanState)
    (hne : st.text ≠ []) (hfm : findMatch st.cur st.text = none) :
    tokenizeLoop l (fuel + 1) st = tokenizeLoop l fuel (stepNoMatch l st) := by
  conv_lhs => rw [tokenizeLoop]
  rw [if_neg hne]
  simp only [hfm]

theorem tokenizeLoop_succ_ok (l : Lexer) (fuel : Nat) (st : ScanState) (i len : Nat)
    (st1 : ScanState) (hne : st.text ≠ []) (hfm : findMatch st.cur st.text = some (i, len))
    (hok : stepMatch l st i len = .ok st1) :
    tokenizeLoop l (fuel + 1) st = tokenizeLoop l fuel st1 := by
  conv_lhs => rw [tokenizeLoop]
  rw [if_neg hne]
  simp only [hfm, hok]

theorem tokenizeLoop_succ_error (l : Lexer) (fuel : Nat) (st : ScanState) (i len : Nat)
    (e : RTErr) (hne : st.text ≠ []) (hfm : findMatch st.cur st.text = some (i, len))
    (herr : stepMatch l st i len = .error e) :
    tokenizeLoop l (fuel + 1) st = .typeError := by
  conv_lhs => rw [tokenizeLoop]
  rw [if_neg hne]
  simp only [hfm, herr]

theorem tokenizeLoop_no_fuel_exhaustion (l : Lexer) (hnz : NoZeroLen l) :
    ∀ fuel st, st.text.length ≤ fuel → (∃ m, st.cur = l.tables m) →
      tokenizeLoop l fuel st ≠ .outOfFuel := by
  intro fuel
  induction fuel with
  | zero =>
    intro st hlen _
    have hempty : st.text = [] := by
      cases h : st.text with
      | nil => rfl
      | cons a b => rw [h] at hlen; simp at hlen
    unfold tokenizeLoop
    rw [if_pos hempty]
    simp
  | succ fuel ih =>
    intro st hlen hcur
    by_cases hempty : st.text = []
    · rw [tokenizeLoop_succ_done l fuel st hempty]
      simp
    · have hpos : 1 ≤ st.text.length := by
        cases h : st.text with
        | nil => exact absurd h hempty
        | cons a b => simp [h]
      cases hfm : findMatch st.cur st.text with
      | none =>
        rw [tokenizeLoop_succ_none l fuel st hempty hfm]
        obtain ⟨n, l2, c2, msg, h1, hle, hstep, _, _⟩ := stepNoMatch_spec l st hempty
        rw [hstep]
        apply ih
        · simp only [List.length_drop]
          omega
        · simpa using hcur
      | some r =>
        obtain ⟨i, len⟩ := r
        obtain ⟨m, hm⟩ := hcur
        obtain ⟨p, hp, hpt⟩ := findMatch_mem st.cur st.text i len hfm
        have hlen1 : 1 ≤ len := hnz m p (by rw [← hm]; exact hp) st.text len hpt
        rcases stepMatch_cases l st i len with herr | ⟨st1, hok, horg, htext, hoff, hsp, hcurr, _⟩
        · rw [tokenizeLoop_succ_error l fuel st i len _ hempty hfm herr]
          simp
        · rw [tokenizeLoop_succ_ok l fuel st i len st1 hempty hfm hok]
          apply ih
          · rw [htext]
            simp only [List.length_drop, List.length_take]
            omega
          · rcases hcurr with hsame | ⟨m2, hm2⟩
            · exact ⟨m, by rw [hsame, hm]⟩
            · exact ⟨m2, hm2⟩

theorem epsLexer_loops (fuel : Nat) :
    ∀ st, st.cur = epsTable → st.text ≠ [] →
      tokenizeLoop epsLexer fuel st = .outOfFuel := by
  induction fuel with
  | zero =>
    intro st _ hne
    unfold tokenizeLoop
    rw [if_neg hne]
  | succ fuel ih =>
    intro st hcur hne
    have hfm : findMatch st.cur st.text = some (0, 0) := by
      rw [hcur]
      rfl
    have hg : st.cur.patternIdxToGroup.getD 0 none = some "default" := by
      rw [hcur]
      rfl
    have hok := stepMatch_group_some epsLexer st 0 0 "default" hg
    rw [afterMode_nopop epsLexer _ 0 _ (by simp [hcur, epsTable])] at hok
    rw [afterPop_eq_none epsLexer _ 0 (by simp [hcur, epsTable])] at hok
    rw [tokenizeLoop_succ_ok epsLexer fuel st 0 0 _ hne hfm hok]
    apply ih
    · simp [hcur]
    · simpa using hne

/-- C9.  For every lexer whose compiled patterns never produce a zero-length
match, the scan loop terminates on every finite input: each iteration
consumes at least one character, so a fuel budget of one iteration per input
character (the budget `tokenize` uses) is never exhausted and `tokenize`
never diverges.  Without that precondition the engine loops forever: the
concrete lexer whose single pattern matches the empty string exhausts every
fuel budget on the nonempty input "a". -/
theorem spec_c9 (l : Lexer) (hnz : NoZeroLen l) :
    (∀ text m fuel, text.length ≤ fuel →
      tokenizeLoop l fuel (initState l text m) ≠ .outOfFuel) ∧
    (∀ text m, l.tokenize text m ≠ .diverge) ∧
    (∀ fuel, tokenizeLoop epsLexer fuel (initState epsLexer ['a'] "M") = .outOfFuel) := by
  have part1 : ∀ text m fuel, text.length ≤ fuel →
      tokenizeLoop l fuel (initState l text m) ≠ .outOfFuel := by
    intro text m fuel hfuel
    exact tokenizeLoop_no_fuel_exhaustion l hnz fuel (initState l text m) hfuel ⟨m, rfl⟩
  refine ⟨part1, ?_, ?_⟩
  · intro text m
    unfold Lexer.tokenize
    by_cases herr : l.lexerDefinitionErrors ≠ []
    · rw [if_pos herr]
      simp
    · rw [if_neg herr]
      cases hres : tokenizeLoop l text.length (initState l text m) with
      | done st => simp
      | typeError => simp
      | outOfFuel => exact absurd hres (part1 text m text.length (le_refl _))
  · intro fuel
    exact epsLexer_loops fuel (initState epsLexer ['a'] "M") rfl (by decide)

theorem spec_c9_witness :
    tokenizeLoop demoLexer 8 (initState demoLexer ("abc!!def".toList) "default_mode") ≠
      .outOfFuel ∧
    demoLexer.tokenize ("abc!!def".toList) "default_mode" ≠ .diverge ∧
    tokenizeLoop epsLexer 5 (initState epsLexer ['a'] "M") = .outOfFuel := by
  have h := spec_c9 demoLexer demoLexer_nz
  exact ⟨h.1 ("abc!!def".toList) "default_mode" 8 (by decide),
    h.2.1 ("abc!!def".toList) "default_mode", h.2.2 5⟩

/-! The input-accounting invariant. -/

theorem joinSpans_snoc (sp : List (Nat × List Char)) (x : Nat × List Char) :
    joinSpans (sp ++ [x]) = joinSpans sp ++ x.2 := by
  unfold joinSpans
  rw [List.map_append, List.flatten_append]
  simp

theorem spansFrom_snoc (a b : Nat) (sp : List (Nat × List Char)) (img : List Char)
    (h : spansFrom a sp b = true) (himg : img ≠ []) :
    spansFrom a (sp ++ [(b, img)]) (b + img.length) = true := by
  induction sp generalizing a with
  | nil =>
    have hab : a = b := by simpa [spansFrom] using h
    subst hab
    simp [spansFrom, himg]
  | cons x rest ih =>
    obtain ⟨off, im⟩ := x
    simp only [spansFrom, Bool.and_eq_true] at h
    obtain ⟨⟨hoff, him⟩, hrest⟩ := h
    simp only [List.cons_append, spansFrom, Bool.and_eq_true]
    exact ⟨⟨hoff, him⟩, ih (a + im.length) hrest⟩

theorem spansFrom_lb (sp : List (Nat × List Char)) :
    ∀ o e, spansFrom o sp e = true → ∀ x ∈ sp, o ≤ x.1 := by
  induction sp with
  | nil =>
    intro o e _ x hx
    cases hx
  | cons y rest ih =>
    obtain ⟨off, im⟩ := y
    intro o e h x hx
    simp only [spansFrom, Bool.and_eq_true] at h
    obtain ⟨⟨hoff, him⟩, hrest⟩ := h
    simp only [beq_iff_eq] at hoff
    rcases List.mem_cons.mp hx with hx | hx
    · subst hx
      simp only
      omega
    · have := ih (o + im.length) e hrest x hx
      omega

theorem spansFrom_pairwise (sp : List (Nat × List Char)) :
    ∀ o e, spansFrom o sp e = true → List.Pairwise (· < ·) (sp.map Prod.fst) := by
  induction sp with
  | nil =>
    intro o e _
    simp
  | cons y rest ih =>
    obtain ⟨off, im⟩ := y
    intro o e h
    simp only [spansFrom, Bool.and_eq_true] at h
    obtain ⟨⟨hoff, him⟩, hrest⟩ := h
    simp only [beq_iff_eq] at hoff
    have him1 : 1 ≤ im.length := by
      cases im with
      | nil => simp at him
      | cons a b => simp
    simp only [List.map_cons, List.pairwise_cons]
    constructor
    · intro z hz
      obtain ⟨x, hx, hxz⟩ := List.mem_map.mp hz
      have := spansFrom_lb rest (o + im.length) e hrest x hx
      omega
    · exact ih (o + im.length) e hrest

theorem take_length_take (t : List Char) (len : Nat) :
    t.take ((t.take len).length) = t.take len := by
  rw [List.length_take]
  rcases Nat.le_total len t.length with h | h
  · rw [Nat.min_eq_left h]
  · rw [Nat.min_eq_right h, List.take_length]
    exact (List.take_of_length_le h).symm

theorem pushGroup_mem (gs : List (String × List TokenRecord)) (g : String)
    (tok : TokenRecord) (e : String × List TokenRecord) (he : e ∈ pushGroup gs g tok) :
    e ∈ gs ∨ ∃ e0 ∈ gs, e = (e0.1, e0.2 ++ [tok]) := by
  unfold pushGroup at he
  obtain ⟨e0, he0, heq⟩ := List.mem_map.mp he
  by_cases hc : e0.1 = g
  · right
    refine ⟨e0, he0, ?_⟩
    rw [← heq, if_pos hc]
  · left
    rw [← heq, if_neg hc]
    exact he0

theorem c1_step_match (l : Lexer) (hnz : NoZeroLen l) (st st1 : ScanState) (i len : Nat)
    (hinv : C1Inv l st) (hne : st.text ≠ [])
    (hfm : findMatch st.cur st.text = some (i, len))
    (hok : stepMatch l st i len = .ok st1) :
    C1Inv l st1 ∧ st1.orgInput = st.orgInput := by
  obtain ⟨hcur, htext, hoffle, hjoin, hchain, htoks, hgrps⟩ := hinv
  obtain ⟨m, hm⟩ := hcur
  obtain ⟨p, hp, hpt⟩ := findMatch_mem st.cur st.text i len hfm
  have hlen1 : 1 ≤ len := hnz m p (by rw [← hm]; exact hp) st.text len hpt
  rcases stepMatch_cases l st i len with herr | ⟨st2, hok2, horg, htext2, hoff2, hsp2, hcur2, hupd⟩
  · rw [herr] at hok
    cases hok
  · have hst : st1 = st2 := by
      rw [hok] at hok2
      exact Except.ok.inj hok2
    subst hst
    have himgne : st.text.take len ≠ [] := by
      intro hcon
      rcases List.take_eq_nil_iff.mp hcon with h | h
      · omega
      · exact hne h
    have himg1 : 1 ≤ (st.text.take len).length := List.length_pos.mpr himgne
    have himgle : (st.text.take len).length ≤ st.text.length := by
      rw [List.length_take]
      omega
    have htlen : st.text.length = st.orgInput.length - st.offset := by
      rw [htext, List.length_drop]
    refine ⟨⟨?_, ?_, ?_, ?_, ?_, ?_, ?_⟩, horg⟩
    · rcases hcur2 with hsame | ⟨m2, hm2⟩
      · exact ⟨m, by rw [hsame, hm]⟩
      · exact ⟨m2, hm2⟩
    · rw [htext2, hoff2, horg, htext, List.drop_drop]
    · rw [hoff2, horg]
      omega
    · rw [hsp2, hoff2, horg, joinSpans_snoc, hjoin, List.take_add]
      congr 1
      rw [← htext]
      exact (take_length_take st.text len).symm
    · rw [hsp2, hoff2]
      exact spansFrom_snoc 0 st.offset st.spans (st.text.take len) hchain himgne
    · rw [hsp2]
      rcases hupd with ⟨hmt, _⟩ | ⟨tok, hto, hti, hcase⟩
      · rw [hmt]
        exact htoks.trans (List.sublist_append_left _ _)
      · rcases hcase with ⟨hmt, _⟩ | ⟨hmt, _⟩
        · rw [hmt, List.map_append]
          have : [tok].map (fun tk => (tk.startOffset, tk.image)) =
              [(st.offset, st.text.take len)] := by
            simp [hto, hti]
          rw [this]
          exact htoks.append (List.Sublist.refl _)
        · rw [hmt]
          exact htoks.trans (List.sublist_append_left _ _)
    · intro gts hgts
      rw [hsp2]
      rcases hupd with ⟨_, hgr⟩ | ⟨tok, hto, hti, hcase⟩
      · rw [hgr] at hgts
        exact (hgrps gts hgts).trans (List.sublist_append_left _ _)
      · rcases hcase with ⟨_, hgr⟩ | ⟨_, g, hgr⟩
        · rw [hgr] at hgts
          exact (hgrps gts hgts).trans (List.sublist_append_left _ _)
        · rw [hgr] at hgts
          rcases pushGroup_mem st.groups g tok gts hgts with hmem | ⟨e0, he0, heq⟩
          · exact (hgrps gts hmem).trans (List.sublist_append_left _ _)
          · rw [heq]
            simp only [List.map_append]
            have : [tok].map (fun tk => (tk.startOffset, tk.image)) =
                [(st.offset, st.text.take len)] := by
              simp [hto, hti]
            rw [this]
            exact (hgrps e0 he0).append (List.Sublist.refl _)

theorem c1_step_nomatch (l : Lexer) (st : ScanState) (hinv : C1Inv l st)
    (hne : st.text ≠ []) :
    C1Inv l (stepNoMatch l st) ∧ (stepNoMatch l st).orgInput = st.orgInput := by
  obtain ⟨hcur, htext, hoffle, hjoin, hchain, htoks, hgrps⟩ := hinv
  obtain ⟨n, l2, c2, msg, h1, hle, hstep, _, _⟩ := stepNoMatch_spec l st hne
  rw [hstep]
  have himgne : st.text.take n ≠ [] := by
    intro hcon
    rcases List.take_eq_nil_iff.mp hcon with h | h
    · omega
    · exact hne h
  have himgl : (st.text.take n).length = n := by
    rw [List.length_take]
    omega
  have htlen : st.text.length = st.orgInput.length - st.offset := by
    rw [htext, List.length_drop]
  refine ⟨⟨hcur, ?_, ?_, ?_, ?_, ?_, ?_⟩, rfl⟩
  · show st.text.drop n = st.orgInput.drop (st.offset + n)
    rw [htext, List.drop_drop]
  · show st.offset + n ≤ st.orgInput.length
    omega
  · show joinSpans (st.spans ++ [(st.offset, st.text.take n)]) =
      st.orgInput.take (st.offset + n)
    rw [joinSpans_snoc, hjoin]
    conv_rhs => rw [show st.offset + n = st.offset + (st.text.take n).length by rw [himgl]]
    rw [List.take_add]
    congr 1
    rw [← htext]
    exact (take_length_take st.text n).symm
  · show spansFrom 0 (st.spans ++ [(st.offset, st.text.take n)]) (st.offset + n) = true
    have := spansFrom_snoc 0 st.offset st.spans (st.text.take n) hchain himgne
    rwa [himgl] at this
  · show List.Sublist (st.matchedTokens.map fun tk => (tk.startOffset, tk.image))
      (st.spans ++ [(st.offset, st.text.take n)])
    exact htoks.trans (List.sublist_append_left _ _)
  · intro gts hgts
    exact (hgrps gts hgts).trans (List.sublist_append_left _ _)

theorem c1_loop (l : Lexer) (hnz : NoZeroLen l) :
    ∀ fuel st st1, C1Inv l st → tokenizeLoop l fuel st = .done st1 →
      C1Inv l st1 ∧ st1.text = [] ∧ st1.orgInput = st.orgInput := by
  intro fuel
  induction fuel with
  | zero =>
    intro st st1 hinv hdone
    rw [tokenizeLoop] at hdone
    split at hdone
    · cases hdone
      exact ⟨hinv, by assumption, rfl⟩
    · cases hdone
  | succ fuel ih =>
    intro st st1 hinv hdone
    by_cases hempty : st.text = []
    · rw [tokenizeLoop_succ_done l fuel st hempty] at hdone
      cases hdone
      exact ⟨hinv, hempty, rfl⟩
    · cases hfm : findMatch st.cur st.text with
      | none =>
        rw [tokenizeLoop_succ_none l fuel st hempty hfm] at hdone
        obtain ⟨hinv2, horg2⟩ := c1_step_nomatch l st hinv hempty
        obtain ⟨ha, hb, hc⟩ := ih _ _ hinv2 hdone
        exact ⟨ha, hb, by rw [hc, horg2]⟩
      | some r =>
        obtain ⟨i, len⟩ := r
        rcases stepMatch_cases l st i len with herr | ⟨st2, hok, _, _, _, _, _, _⟩
        · rw [tokenizeLoop_succ_error l fuel st i len _ hempty hfm herr] at hdone
          cases hdone
        · rw [tokenizeLoop_succ_ok l fuel st i len st2 hempty hfm hok] at hdone
          obtain ⟨hinv2, horg2⟩ := c1_step_match l hnz st st2 i len hinv hempty hfm hok
          obtain ⟨ha, hb, hc⟩ := ih _ _ hinv2 hdone
          exact ⟨ha, hb, by rw [hc, horg2]⟩

theorem initState_c1inv (l : Lexer) (text : List Char) (m : String) :
    C1Inv l (initState l text m) := by
  refine ⟨⟨m, rfl⟩, by simp [initState], by simp [initState], ?_, ?_, ?_, ?_⟩
  · simp [initState, joinSpans]
  · simp [initState, spansFrom]
  · simp [initState]
  · intro gts hgts
    have : gts.2 = [] := by
      simp only [initState] at hgts
      obtain ⟨g0, _, heq⟩ := List.mem_map.mp hgts
      rw [← heq]
    rw [this]
    simp

/-- C1.  For every lexer whose patterns never produce a zero-length match and
every input, when the scan loop completes: the consumed segments recorded on
the ghost span trace (each one the image of an emitted token, the image of a
SKIPPED match, or the characters dropped by one error-recovery episode) form
a gap-free chain of nonempty spans from offset 0 to the input length whose
concatenation in offset order reproduces the input exactly — so each input
character belongs to exactly one span; the span offsets are strictly
increasing, the emitted default-stream tokens (with their offsets and
images) form a sub-sequence of that trace, and so does every named group
bucket, so start offsets are strictly increasing across emitted tokens and
across the buckets. -/
theorem spec_c1 (l : Lexer) (text : List Char) (m : String) (fuel : Nat) (st : ScanState)
    (hnz : NoZeroLen l)
    (hdone : tokenizeLoop l fuel (initState l text m) = .done st) :
    joinSpans st.spans = text ∧
    spansFrom 0 st.spans text.length = true ∧
    List.Pairwise (· < ·) (st.spans.map Prod.fst) ∧
    List.Sublist (st.matchedTokens.map fun tk => (tk.startOffset, tk.image)) st.spans ∧
    List.Pairwise (· < ·) (st.matchedTokens.map TokenRecord.startOffset) ∧
    ∀ gts ∈ st.groups,
      List.Sublist (gts.2.map fun tk => (tk.startOffset, tk.image)) st.spans ∧
      List.Pairwise (· < ·) (gts.2.map TokenRecord.startOffset) := by
  obtain ⟨⟨hcur, htext, hoffle, hjoin, hchain, htoks, hgrps⟩, hdoneText, horg⟩ :=
    c1_loop l hnz fuel (initState l text m) st (initState_c1inv l text m) hdone
  have horg' : st.orgInput = text := horg
  have hofflen : st.offset = text.length := by
    rw [hdoneText, horg'] at htext
    have := congrArg List.length htext
    simp only [List.length_drop, List.length_nil] at this
    rw [horg'] at hoffle
    omega
  have hjoin' : joinSpans st.spans = text := by
    rw [hjoin, horg', hofflen, List.take_length]
  have hchain' : spansFrom 0 st.spans text.length = true := by
    rw [← hofflen]
    exact hchain
  have hpw : List.Pairwise (· < ·) (st.spans.map Prod.fst) :=
    spansFrom_pairwise st.spans 0 st.offset hchain
  have tok_pw : ∀ ts : List TokenRecord,
      List.Sublist (ts.map fun tk => (tk.startOffset, tk.image)) st.spans →
      List.Pairwise (· < ·) (ts.map TokenRecord.startOffset) := by
    intro ts hsub
    have hmm : ts.map TokenRecord.startOffset =
        (ts.map fun tk => (tk.startOffset, tk.image)).map Prod.fst := by
      rw [List.map_map]
      rfl
    rw [hmm]
    exact List.Pairwise.sublist (hsub.map Prod.fst) hpw
  refine ⟨hjoin', hchain', hpw, htoks, tok_pw st.matchedTokens htoks, ?_⟩
  intro gts hgts
  exact ⟨hgrps gts hgts, tok_pw gts.2 (hgrps gts hgts)⟩

theorem spec_c1_witness :
    ∃ st, tokenizeLoop demoLexer 8
        (initState demoLexer ("abc!!def".toList) "default_mode") = .done st ∧
      joinSpans st.spans = "abc!!def".toList ∧
      spansFrom 0 st.spans ("abc!!def".toList).length = true ∧
      st.spans = [(0, "abc".toList), (3, "!!".toList), (5, "def".toList)] ∧
      List.Pairwise (· < ·) (st.matchedTokens.map TokenRecord.startOffset) := by
  have h := spec_c1 demoLexer ("abc!!def".toList) "default_mode" 8 _ demoLexer_nz rfl
  exact ⟨_, rfl, h.1, h.2.1, by decide, h.2.2.2.2.1⟩

end Chevrotain
